import Mathlib

/-!
Formal model of the attribute-resolution pipeline implemented in
src/PnB_Excel_Processor/excelprocessor3.py.

Cells are modelled as `Option String` (`none` stands for a null / NaN
cell).  Tables are lists of rows.  The pandas operations used by the
source are modelled as list functions:

* `sort_values`            -> `sSort`, a stable insertion sort (pandas
  uses a stable lexsort for multi-column sorts; for the single-column
  sorts in the source, the downstream results are order-insensitive);
* `drop_duplicates(keep='first')` -> `dedupKeepFirst`;
* `groupby(...).size()`    -> distinct keys, sorted ascending, paired
  with their occurrence counts (pandas sorts group keys and drops null
  keys by default);
* `merge`                  -> a flatMap producing, for every left row,
  the matching right rows in order, with a single null-padded row for a
  left-join miss (pandas join keys treat NaN as equal to NaN, which the
  `Option` equality used here reproduces).

Python string operations (`str.strip`, `str.upper`, `str.split`, the
lexicographic `<` used by sorting) are modelled on the character list
`String.data`, so that every definition evaluates by `decide`.
-/

/-- Lexicographic strict comparison of character lists, by code point;
this is how Python compares the strings that appear in sort keys. -/
def charsLtB : List Char → List Char → Bool
  | [], [] => false
  | [], _ :: _ => true
  | _ :: _, [] => false
  | a :: as, b :: bs => if a < b then true else if b < a then false else charsLtB as bs

/-- Python string `<`, as a Bool on the underlying character lists. -/
def strLtB (a b : String) : Bool := charsLtB a.data b.data

/-- Python `s1 <= s2`. -/
def strLeB (a b : String) : Bool := !strLtB b a

/-- Python `str.strip()` on a character list. -/
def stripChars (l : List Char) : List Char :=
  ((l.dropWhile Char.isWhitespace).reverse.dropWhile Char.isWhitespace).reverse

/-- Python `str.strip()`. -/
def pyStrip (s : String) : String := String.mk (stripChars s.data)

/-- Python `str.upper()` (restricted to the ASCII letters that occur in
the data of interest, matching `Char.toUpper`). -/
def pyUpper (s : String) : String := String.mk (s.data.map Char.toUpper)

/-- Helper of `tokens`: accumulates the current (reversed) token. -/
def tokensAux : List Char → List Char → List (List Char)
  | [], acc => if acc.isEmpty then [] else [acc.reverse]
  | c :: cs, acc =>
    if c.isWhitespace then
      (if acc.isEmpty then tokensAux cs [] else acc.reverse :: tokensAux cs [])
    else tokensAux cs (c :: acc)

/-- Python `str.split()` with no argument: maximal runs of
non-whitespace characters. -/
def pyTokens (s : String) : List String := (tokensAux s.data []).map String.mk

/-- A cell is blank when it is null or strips to the empty string
(`pd.notna(v) and str(v).strip() != ""`, negated). -/
def isBlankCell : Option String → Bool
  | none => true
  | some s => (stripChars s.data).isEmpty

/-- Stable insertion: `x` is placed after every `y` with `lt y x` and
before the first `y` with `¬ lt y x`, hence after earlier equivalent
elements (stability). -/
def sInsert (lt : α → α → Prop) [DecidableRel lt] (x : α) : List α → List α
  | [] => [x]
  | y :: ys => if lt y x then y :: sInsert lt x ys else x :: y :: ys

/-- Stable insertion sort, modelling pandas `sort_values`. -/
def sSort (lt : α → α → Prop) [DecidableRel lt] : List α → List α
  | [] => []
  | x :: xs => sInsert lt x (sSort lt xs)

/-- Helper of `dedupKeepFirst`: drops every element whose key was
already seen. -/
def dedupSeen (key : α → κ) [DecidableEq κ] (seen : List κ) : List α → List α
  | [] => []
  | x :: xs =>
    if key x ∈ seen then dedupSeen key seen xs
    else x :: dedupSeen key (key x :: seen) xs

/-- pandas `drop_duplicates(subset = key, keep = 'first')`. -/
def dedupKeepFirst (key : α → κ) [DecidableEq κ] (l : List α) : List α :=
  dedupSeen key [] l

theorem charsLtB_irrefl : ∀ a : List Char, charsLtB a a = false := by
  intro a
  induction a with
  | nil => rfl
  | cons c cs ih =>
    show (if c < c then true else if c < c then false else charsLtB cs cs) = false
    rw [if_neg (lt_irrefl c), if_neg (lt_irrefl c)]
    exact ih

theorem charsLtB_asymm :
    ∀ a b : List Char, charsLtB a b = true → charsLtB b a = false := by
  intro a
  induction a with
  | nil =>
    intro b h
    cases b with
    | nil => exact absurd h (by decide)
    | cons d ds => rfl
  | cons c cs ih =>
    intro b h
    cases b with
    | nil => exact absurd h (by simp [charsLtB])
    | cons d ds =>
      by_cases hcd : c < d
      · have hdc : ¬ d < c := not_lt_of_gt hcd
        show (if d < c then true else if c < d then false else charsLtB ds cs) = false
        rw [if_neg hdc, if_pos hcd]
      · by_cases hdc : d < c
        · exact absurd h (by simp [charsLtB, if_neg hcd, if_pos hdc])
        · have heq : charsLtB cs ds = true := by
            have := h
            rwa [show charsLtB (c :: cs) (d :: ds)
                = (if c < d then true else if d < c then false else charsLtB cs ds)
              from rfl, if_neg hcd, if_neg hdc] at this
          show (if d < c then true else if c < d then false else charsLtB ds cs) = false
          rw [if_neg hdc, if_neg hcd]
          exact ih ds heq

theorem charsLtB_trans :
    ∀ a b c : List Char,
      charsLtB a b = true → charsLtB b c = true → charsLtB a c = true := by
  intro a
  induction a with
  | nil =>
    intro b c h1 h2
    cases b with
    | nil => exact absurd h1 (by simp [charsLtB])
    | cons d ds =>
      cases c with
      | nil => exact absurd h2 (by simp [charsLtB])
      | cons e es => rfl
  | cons x xs ih =>
    intro b c h1 h2
    cases b with
    | nil => exact absurd h1 (by simp [charsLtB])
    | cons y ys =>
      cases c with
      | nil => exact absurd h2 (by simp [charsLtB])
      | cons z zs =>
        have h1' : (if x < y then true else if y < x then false else charsLtB xs ys) = true := h1
        have h2' : (if y < z then true else if z < y then false else charsLtB ys zs) = true := h2
        show (if x < z then true else if z < x then false else charsLtB xs zs) = true
        by_cases hxy : x < y
        · by_cases hyz : y < z
          · rw [if_pos (lt_trans hxy hyz)]
          · by_cases hzy : z < y
            · exact absurd h2' (by simp [if_neg hyz, if_pos hzy])
            · have : y = z := le_antisymm (le_of_not_lt hzy) (le_of_not_lt hyz)
              subst this
              rw [if_pos hxy]
        · by_cases hyx : y < x
          · exact absurd h1' (by simp [if_neg hxy, if_pos hyx])
          · have hxe : x = y := le_antisymm (le_of_not_lt hyx) (le_of_not_lt hxy)
            subst hxe
            by_cases hyz : x < z
            · rw [if_pos hyz]
            · by_cases hzy : z < x
              · exact absurd h2' (by simp [if_neg hyz, if_pos hzy])
              · rw [if_neg hyz, if_neg hzy]
                rw [if_neg hxy, if_neg hxy] at h1'
                rw [if_neg hyz, if_neg hzy] at h2'
                exact ih ys zs h1' h2'

theorem charsLtB_eq_of_not :
    ∀ a b : List Char,
      charsLtB a b = false → charsLtB b a = false → a = b := by
  intro a
  induction a with
  | nil =>
    intro b h1 _
    cases b with
    | nil => rfl
    | cons d ds => exact absurd h1 (by simp [charsLtB])
  | cons c cs ih =>
    intro b h1 h2
    cases b with
    | nil => exact absurd h2 (by simp [charsLtB])
    | cons d ds =>
      by_cases hcd : c < d
      · exact absurd h1 (by simp [charsLtB, if_pos hcd])
      · by_cases hdc : d < c
        · exact absurd h2 (by simp [charsLtB, if_pos hdc, if_neg (not_lt_of_gt hdc)])
        · have hce : c = d := le_antisymm (le_of_not_lt hdc) (le_of_not_lt hcd)
          subst hce
          have h1' : charsLtB cs ds = false := by
            rwa [show charsLtB (c :: cs) (c :: ds)
                = (if c < c then true else if c < c then false else charsLtB cs ds)
              from rfl, if_neg (lt_irrefl c), if_neg (lt_irrefl c)] at h1
          have h2' : charsLtB ds cs = false := by
            rwa [show charsLtB (c :: ds) (c :: cs)
                = (if c < c then true else if c < c then false else charsLtB ds cs)
              from rfl, if_neg (lt_irrefl c), if_neg (lt_irrefl c)] at h2
          rw [ih ds h1' h2']

theorem strLtB_irrefl (a : String) : strLtB a a = false := charsLtB_irrefl a.data

theorem strLtB_asymm {a b : String} (h : strLtB a b = true) : strLtB b a = false :=
  charsLtB_asymm a.data b.data h

theorem strLtB_trans {a b c : String}
    (h1 : strLtB a b = true) (h2 : strLtB b c = true) : strLtB a c = true :=
  charsLtB_trans a.data b.data c.data h1 h2

theorem strLtB_eq_of_not {a b : String}
    (h1 : strLtB a b = false) (h2 : strLtB b a = false) : a = b := by
  have hd : a.data = b.data := charsLtB_eq_of_not a.data b.data h1 h2
  have ha : String.mk a.data = a := rfl
  have hb : String.mk b.data = b := rfl
  rw [← ha, ← hb, hd]

theorem sInsert_perm (lt : α → α → Prop) [DecidableRel lt] (x : α) :
    ∀ l : List α, (sInsert lt x l).Perm (x :: l) := by
  intro l
  induction l with
  | nil => exact List.Perm.refl _
  | cons y ys ih =>
    show (if lt y x then y :: sInsert lt x ys else x :: y :: ys).Perm (x :: y :: ys)
    by_cases h : lt y x
    · rw [if_pos h]
      exact (ih.cons y).trans (List.Perm.swap x y ys)
    · rw [if_neg h]

theorem sSort_perm (lt : α → α → Prop) [DecidableRel lt] :
    ∀ l : List α, (sSort lt l).Perm l := by
  intro l
  induction l with
  | nil => exact List.Perm.refl _
  | cons x xs ih =>
    show (sInsert lt x (sSort lt xs)).Perm (x :: xs)
    exact (sInsert_perm lt x (sSort lt xs)).trans (ih.cons x)

theorem mem_sSort (lt : α → α → Prop) [DecidableRel lt] {l : List α} {x : α} :
    x ∈ sSort lt l ↔ x ∈ l :=
  (sSort_perm lt l).mem_iff

theorem sInsert_pairwise (lt : α → α → Prop) [DecidableRel lt]
    (hasymm : ∀ a b, lt a b → ¬ lt b a)
    (hnt : ∀ a b c, ¬ lt b a → ¬ lt c b → ¬ lt c a) (x : α) :
    ∀ l : List α, l.Pairwise (fun a b => ¬ lt b a) →
      (sInsert lt x l).Pairwise (fun a b => ¬ lt b a) := by
  intro l
  induction l with
  | nil =>
    intro _
    exact List.pairwise_singleton _ x
  | cons y ys ih =>
    intro h
    rcases List.pairwise_cons.mp h with ⟨hy, hys⟩
    show (if lt y x then y :: sInsert lt x ys else x :: y :: ys).Pairwise
      (fun a b => ¬ lt b a)
    by_cases hlt : lt y x
    · rw [if_pos hlt]
      refine List.pairwise_cons.mpr ⟨?_, ih hys⟩
      intro z hz
      rcases List.mem_cons.mp ((sInsert_perm lt x ys).mem_iff.mp hz) with hzx | hzy
      · rw [hzx]
        exact hasymm y x hlt
      · exact hy z hzy
    · rw [if_neg hlt]
      refine List.pairwise_cons.mpr ⟨?_, h⟩
      intro z hz
      rcases List.mem_cons.mp hz with hzy | hzys
      · rw [hzy]
        exact hlt
      · exact hnt x y z hlt (hy z hzys)

theorem sSort_pairwise (lt : α → α → Prop) [DecidableRel lt]
    (hasymm : ∀ a b, lt a b → ¬ lt b a)
    (hnt : ∀ a b c, ¬ lt b a → ¬ lt c b → ¬ lt c a) :
    ∀ l : List α, (sSort lt l).Pairwise (fun a b => ¬ lt b a) := by
  intro l
  induction l with
  | nil => exact List.Pairwise.nil
  | cons x xs ih => exact sInsert_pairwise lt hasymm hnt x (sSort lt xs) ih

theorem filter_sInsert_pos (lt : α → α → Prop) [DecidableRel lt] (p : α → Bool)
    (x : α) (hp : p x = true) (hcl : ∀ y, p y = true → ¬ lt y x) :
    ∀ l : List α, (sInsert lt x l).filter p = x :: l.filter p := by
  intro l
  induction l with
  | nil => simp [sInsert, hp]
  | cons y ys ih =>
    show (if lt y x then y :: sInsert lt x ys else x :: y :: ys).filter p
      = x :: (y :: ys).filter p
    by_cases hlt : lt y x
    · have hpy : p y = false := by
        cases hpy : p y with
        | false => rfl
        | true => exact absurd hlt (hcl y hpy)
      rw [if_pos hlt, List.filter_cons_of_neg (by simp [hpy]),
        List.filter_cons_of_neg (by simp [hpy])]
      exact ih
    · rw [if_neg hlt, List.filter_cons_of_pos hp]

theorem filter_sInsert_neg (lt : α → α → Prop) [DecidableRel lt] (p : α → Bool)
    (x : α) (hp : p x = false) :
    ∀ l : List α, (sInsert lt x l).filter p = l.filter p := by
  intro l
  induction l with
  | nil => simp [sInsert, hp]
  | cons y ys ih =>
    show (if lt y x then y :: sInsert lt x ys else x :: y :: ys).filter p
      = (y :: ys).filter p
    by_cases hlt : lt y x
    · rw [if_pos hlt]
      cases hpy : p y with
      | true => rw [List.filter_cons_of_pos hpy, List.filter_cons_of_pos hpy, ih]
      | false =>
        rw [List.filter_cons_of_neg (by simp [hpy]),
          List.filter_cons_of_neg (by simp [hpy])]
        exact ih
    · rw [if_neg hlt, List.filter_cons_of_neg (by simp [hp])]

theorem filter_sSort (lt : α → α → Prop) [DecidableRel lt] (p : α → Bool)
    (hcls : ∀ a b, p a = true → p b = true → ¬ lt a b) :
    ∀ l : List α, (sSort lt l).filter p = l.filter p := by
  intro l
  induction l with
  | nil => rfl
  | cons x xs ih =>
    show (sInsert lt x (sSort lt xs)).filter p = (x :: xs).filter p
    cases hp : p x with
    | true =>
      rw [filter_sInsert_pos lt p x hp (fun y hy => hcls y x hy hp), ih,
        List.filter_cons_of_pos hp]
    | false =>
      rw [filter_sInsert_neg lt p x hp, ih,
        List.filter_cons_of_neg (by simp [hp])]

theorem find?_min {R : α → α → Prop} {p : α → Bool} :
    ∀ {l : List α}, l.Pairwise R → l.find? p = some x → ∀ y ∈ l, p y = true →
      x = y ∨ R x y := by
  intro l
  induction l with
  | nil => intro _ h; exact absurd h (by simp)
  | cons a as ih =>
    intro hpw hf y hy hpy
    rcases List.pairwise_cons.mp hpw with ⟨ha, has⟩
    cases hpa : p a with
    | true =>
      rw [List.find?_cons_of_pos _ hpa] at hf
      have hxa : x = a := (Option.some_inj.mp hf).symm
      subst hxa
      rcases List.mem_cons.mp hy with hya | hyas
      · exact Or.inl hya.symm
      · exact Or.inr (ha y hyas)
    | false =>
      rw [List.find?_cons_of_neg _ (by simp [hpa])] at hf
      rcases List.mem_cons.mp hy with hya | hyas
      · rw [hya] at hpy
        exact absurd hpy (by simp [hpa])
      · exact ih has hf y hyas hpy

theorem filter_eq_cons_of_find? {p q : α → Bool} :
    ∀ {l : List α}, l.find? q = some x → (∀ z, p z = true → q z = true) →
      p x = true → ∃ t, l.filter p = x :: t := by
  intro l
  induction l with
  | nil => intro h; exact absurd h (by simp)
  | cons a as ih =>
    intro hf himp hpx
    cases hqa : q a with
    | true =>
      rw [List.find?_cons_of_pos _ hqa] at hf
      have hxa : x = a := (Option.some_inj.mp hf).symm
      subst hxa
      exact ⟨as.filter p, by simp [List.filter_cons, hpx]⟩
    | false =>
      have hpa : p a = false := by
        cases hpa : p a with
        | false => rfl
        | true => exact absurd (himp a hpa) (by simp [hqa])
      rw [List.find?_cons_of_neg _ (by simp [hqa])] at hf
      rcases ih hf himp hpx with ⟨t, ht⟩
      exact ⟨t, by simp [List.filter_cons, hpa, ht]⟩

theorem mem_dedupSeen (key : α → κ) [DecidableEq κ] :
    ∀ (seen : List κ) (l : List α) (y : α), y ∈ dedupSeen key seen l →
      y ∈ l ∧ key y ∉ seen := by
  intro seen l
  induction l generalizing seen with
  | nil => intro y h; exact absurd h (by simp [dedupSeen])
  | cons x xs ih =>
    intro y h
    by_cases hx : key x ∈ seen
    · rw [show dedupSeen key seen (x :: xs) = dedupSeen key seen xs
        from by simp [dedupSeen, if_pos hx]] at h
      rcases ih seen y h with ⟨h1, h2⟩
      exact ⟨List.mem_cons_of_mem x h1, h2⟩
    · rw [show dedupSeen key seen (x :: xs)
          = x :: dedupSeen key (key x :: seen) xs
        from by simp [dedupSeen, if_neg hx]] at h
      rcases List.mem_cons.mp h with hyx | hmem
      · rw [hyx]
        exact ⟨List.mem_cons_self x xs, hx⟩
      · rcases ih (key x :: seen) y hmem with ⟨h1, h2⟩
        exact ⟨List.mem_cons_of_mem x h1, fun hc => h2 (List.mem_cons_of_mem _ hc)⟩

theorem find?_dedupSeen (key : α → κ) [DecidableEq κ] (p : α → Bool)
    (hp : ∀ x y, key x = key y → p x = p y) :
    ∀ (seen : List κ) (l : List α), (∀ x ∈ l, key x ∈ seen → p x = false) →
      (dedupSeen key seen l).find? p = l.find? p := by
  intro seen l
  induction l generalizing seen with
  | nil => intro _; rfl
  | cons x xs ih =>
    intro hseen
    by_cases hx : key x ∈ seen
    · have hpx : p x = false := hseen x (List.mem_cons_self x xs) hx
      rw [show dedupSeen key seen (x :: xs) = dedupSeen key seen xs
          from by simp [dedupSeen, if_pos hx],
        ih seen (fun z hz => hseen z (List.mem_cons_of_mem x hz)),
        List.find?_cons_of_neg _ (by simp [hpx])]
    · rw [show dedupSeen key seen (x :: xs)
          = x :: dedupSeen key (key x :: seen) xs
        from by simp [dedupSeen, if_neg hx]]
      cases hpx : p x with
      | true =>
        rw [List.find?_cons_of_pos _ hpx, List.find?_cons_of_pos _ hpx]
      | false =>
        rw [List.find?_cons_of_neg _ (by simp [hpx]),
          List.find?_cons_of_neg _ (by simp [hpx])]
        refine ih (key x :: seen) ?_
        intro z hz hkz
        rcases List.mem_cons.mp hkz with hzx | hzs
        · rw [hp z x hzx]
          exact hpx
        · exact hseen z (List.mem_cons_of_mem x hz) hzs

theorem find?_dedupKeepFirst (key : α → κ) [DecidableEq κ] (p : α → Bool)
    (hp : ∀ x y, key x = key y → p x = p y) (l : List α) :
    (dedupKeepFirst key l).find? p = l.find? p :=
  find?_dedupSeen key p hp [] l (by simp)

theorem filter_dedupSeen_of_seen (key : α → κ) [DecidableEq κ] (p : α → Bool)
    (k : κ) (hpk : ∀ x, p x = true ↔ key x = k) :
    ∀ (seen : List κ) (l : List α), k ∈ seen →
      (dedupSeen key seen l).filter p = [] := by
  intro seen l
  induction l generalizing seen with
  | nil => intro _; rfl
  | cons x xs ih =>
    intro hk
    by_cases hx : key x ∈ seen
    · rw [show dedupSeen key seen (x :: xs) = dedupSeen key seen xs
        from by simp [dedupSeen, if_pos hx]]
      exact ih seen hk
    · have hkx : key x ≠ k := fun hc => hx (hc ▸ hk)
      have hpx : p x = false := by
        cases hpx : p x with
        | false => rfl
        | true => exact absurd ((hpk x).mp hpx) hkx
      rw [show dedupSeen key seen (x :: xs)
          = x :: dedupSeen key (key x :: seen) xs
        from by simp [dedupSeen, if_neg hx],
        List.filter_cons_of_neg (by simp [hpx])]
      exact ih (key x :: seen) (List.mem_cons_of_mem _ hk)

theorem filter_dedupSeen (key : α → κ) [DecidableEq κ] (p : α → Bool)
    (k : κ) (hpk : ∀ x, p x = true ↔ key x = k) :
    ∀ (seen : List κ) (l : List α), k ∉ seen →
      (dedupSeen key seen l).filter p = (l.find? p).toList := by
  intro seen l
  induction l generalizing seen with
  | nil => intro _; rfl
  | cons x xs ih =>
    intro hk
    by_cases hx : key x ∈ seen
    · have hkx : key x ≠ k := fun hc => hk (hc ▸ hx)
      have hpx : p x = false := by
        cases hpx : p x with
        | false => rfl
        | true => exact absurd ((hpk x).mp hpx) hkx
      rw [show dedupSeen key seen (x :: xs) = dedupSeen key seen xs
          from by simp [dedupSeen, if_pos hx],
        ih seen hk, List.find?_cons_of_neg _ (by simp [hpx])]
    · rw [show dedupSeen key seen (x :: xs)
        = x :: dedupSeen key (key x :: seen) xs
        from by simp [dedupSeen, if_neg hx]]
      cases hpx : p x with
      | true =>
        have hkx : key x = k := (hpk x).mp hpx
        rw [List.filter_cons_of_pos hpx, List.find?_cons_of_pos _ hpx,
          filter_dedupSeen_of_seen key p k hpk (key x :: seen) xs
            (by rw [hkx]; exact List.mem_cons_self _ _)]
        rfl
      | false =>
        rw [List.filter_cons_of_neg (by simp [hpx]),
          List.find?_cons_of_neg _ (by simp [hpx])]
        refine ih (key x :: seen) ?_
        intro hc
        rcases List.mem_cons.mp hc with h1 | h2
        · exact absurd ((hpk x).mpr h1.symm) (by simp [hpx])
        · exact hk h2

theorem filter_dedupKeepFirst (key : α → κ) [DecidableEq κ] (p : α → Bool)
    (k : κ) (hpk : ∀ x, p x = true ↔ key x = k) (l : List α) :
    (dedupKeepFirst key l).filter p = (l.find? p).toList :=
  filter_dedupSeen key p k hpk [] l (by simp)

theorem pairwise_keys_dedupSeen (key : α → κ) [DecidableEq κ] :
    ∀ (seen : List κ) (l : List α),
      (dedupSeen key seen l).Pairwise (fun a b => key a ≠ key b) := by
  intro seen l
  induction l generalizing seen with
  | nil => exact List.Pairwise.nil
  | cons x xs ih =>
    by_cases hx : key x ∈ seen
    · rw [show dedupSeen key seen (x :: xs) = dedupSeen key seen xs
        from by simp [dedupSeen, if_pos hx]]
      exact ih seen
    · rw [show dedupSeen key seen (x :: xs)
        = x :: dedupSeen key (key x :: seen) xs
        from by simp [dedupSeen, if_neg hx]]
      refine List.pairwise_cons.mpr ⟨?_, ih (key x :: seen)⟩
      intro z hz
      have := (mem_dedupSeen key (key x :: seen) xs z hz).2
      intro hc
      exact this (by rw [← hc]; exact List.mem_cons_self _ _)

theorem nodup_dedupKeepFirst_id [DecidableEq α] (l : List α) :
    (dedupKeepFirst (fun x : α => x) l).Nodup :=
  pairwise_keys_dedupSeen (fun x : α => x) [] l

theorem mem_dedupSeen_id [DecidableEq α] :
    ∀ (seen : List α) (l : List α) (y : α),
      y ∈ dedupSeen (fun x : α => x) seen l ↔ (y ∈ l ∧ y ∉ seen) := by
  intro seen l
  induction l generalizing seen with
  | nil => intro y; simp [dedupSeen]
  | cons x xs ih =>
    intro y
    by_cases hx : x ∈ seen
    · rw [show dedupSeen (fun x : α => x) seen (x :: xs)
          = dedupSeen (fun x : α => x) seen xs
        from by simp [dedupSeen, if_pos hx]]
      rw [ih seen y]
      constructor
      · rintro ⟨h1, h2⟩
        exact ⟨List.mem_cons_of_mem x h1, h2⟩
      · rintro ⟨h1, h2⟩
        rcases List.mem_cons.mp h1 with hyx | hmem
        · exact absurd (hyx ▸ hx) h2
        · exact ⟨hmem, h2⟩
    · rw [show dedupSeen (fun x : α => x) seen (x :: xs)
        = x :: dedupSeen (fun x : α => x) (x :: seen) xs
        from by simp [dedupSeen, if_neg hx]]
      constructor
      · intro h
        rcases List.mem_cons.mp h with hyx | hmem
        · exact ⟨hyx ▸ List.mem_cons_self x xs, hyx ▸ hx⟩
        · rcases (ih (x :: seen) y).mp hmem with ⟨h1, h2⟩
          exact ⟨List.mem_cons_of_mem x h1,
            fun hc => h2 (List.mem_cons_of_mem _ hc)⟩
      · rintro ⟨h1, h2⟩
        rcases List.mem_cons.mp h1 with hyx | hmem
        · exact hyx ▸ List.mem_cons_self _ _
        · by_cases hyx : y = x
          · exact hyx ▸ List.mem_cons_self _ _
          · refine List.mem_cons_of_mem _ ((ih (x :: seen) y).mpr ⟨hmem, ?_⟩)
            intro hc
            rcases List.mem_cons.mp hc with h3 | h4
            · exact hyx h3
            · exact h2 h4

theorem mem_dedupKeepFirst_id [DecidableEq α] {l : List α} {y : α} :
    y ∈ dedupKeepFirst (fun x : α => x) l ↔ y ∈ l := by
  rw [show dedupKeepFirst (fun x : α => x) l
      = dedupSeen (fun x : α => x) [] l from rfl,
    mem_dedupSeen_id]
  simp

/-- Indices of the non-blank cells of a row
(`[idx for idx, v in enumerate(row_values) if pd.notna(v) and str(v).strip() != ""]`). -/
def nonEmptyIndices (row : List (Option String)) : List Nat :=
  (row.enum.filter (fun p => !isBlankCell p.2)).map (fun p => p.1)

/-- Header search of `clean_excel`: the first row with more than 3
non-blank cells, together with the index of its first non-blank cell. -/
def findHeader : List (List (Option String)) → Option (Nat × Nat)
  | [] => none
  | r :: rs =>
    if 3 < (nonEmptyIndices r).length then some (0, (nonEmptyIndices r).headD 0)
    else (findHeader rs).map (fun p => (p.1 + 1, p.2))

/-- Width of a worksheet as read by pandas: the longest row. -/
def sheetWidth (s : List (List (Option String))) : Nat :=
  s.foldr (fun r w => max r.length w) 0

/-- Pad a row with nulls to the sheet width, as `pd.read_excel` does. -/
def padTo (w : Nat) (r : List (Option String)) : List (Option String) :=
  r ++ List.replicate (w - r.length) none

/-- The rectangular grid pandas builds from a (possibly ragged) sheet. -/
def padGrid (s : List (List (Option String))) : List (List (Option String)) :=
  s.map (padTo (sheetWidth s))

/-- Python `max(all_sheets.items(), key = lambda x: len(x[1]))`: the
first sheet with the greatest row count. -/
def selectSheet : List (List (List (Option String))) → Option (List (List (Option String)))
  | [] => none
  | s :: ss =>
    match selectSheet ss with
    | none => some s
    | some t => if t.length > s.length then some t else some s

/-- The cleaned table: a header row and the data rows below it. -/
structure CleanTable where
  header : List (Option String)
  data : List (List (Option String))
deriving DecidableEq, Repr

/-- Failure modes of `clean_excel`: no sheet at all, an empty largest
sheet ("No data found in the largest sheet"), or no header row ("Could
not find a row with more than 3 filled cells"). -/
inductive CleanError
  | noSheets
  | noData
  | noHeader
deriving DecidableEq, Repr

deriving instance DecidableEq for Except

/-- pandas `dropna(how='all')`: keep rows with at least one non-null cell. -/
def dropAllNullRows (rows : List (List (Option String))) : List (List (Option String)) :=
  rows.filter (fun r => r.any (fun cl => cl.isSome))

/-- Column indices kept by `df.loc[:, ~df.isnull().all()]`: a column
survives when some data row is non-null there. -/
def keptColsIdx (data : List (List (Option String))) (w : Nat) : List Nat :=
  (List.range w).filter (fun j => data.any (fun r => (r.getD j none).isSome))

/-- Restriction of a row to the listed column indices. -/
def projectRow (cols : List Nat) (r : List (Option String)) : List (Option String) :=
  cols.map (fun j => r.getD j none)

/-- The tail of `clean_excel` once the header position `(i, c)` is
known: drop the rows above the header and the first `c` cells of every
row, split off the header, drop fully-null rows, then fully-null
columns. -/
def cleanFrom (g : List (List (Option String))) (i c : Nat) : CleanTable :=
  let rows := (g.drop i).map (fun r => r.drop c)
  let header := rows.headD []
  let data := dropAllNullRows (rows.drop 1)
  let cols := keptColsIdx data header.length
  ⟨projectRow cols header, data.map (projectRow cols)⟩

/-- Model of `clean_excel` (excelprocessor3.py, lines 10-68): pick the
sheet with the most rows, fail when it is empty, find the header row,
re-base the table at it and drop fully-null rows and columns.  The
source performs no check at all on the uniqueness of header names. -/
def clean_excel (sheets : List (List (List (Option String)))) :
    Except CleanError CleanTable :=
  match selectSheet sheets with
  | none => .error .noSheets
  | some s =>
    if s.isEmpty || sheetWidth s == 0 then .error .noData
    else
      match findHeader (padGrid s) with
      | none => .error .noHeader
      | some (i, c) => .ok (cleanFrom (padGrid s) i c)

theorem findHeader_none_iff :
    ∀ g : List (List (Option String)),
      findHeader g = none ↔ ∀ r ∈ g, ¬ 3 < (nonEmptyIndices r).length := by
  intro g
  induction g with
  | nil => simp [findHeader]
  | cons r rs ih =>
    by_cases h : 3 < (nonEmptyIndices r).length
    · rw [show findHeader (r :: rs)
        = some (0, (nonEmptyIndices r).headD 0) from by simp [findHeader, if_pos h]]
      simp only [List.mem_cons]
      constructor
      · intro hc; exact absurd hc (by simp)
      · intro hall
        exact absurd h (hall r (Or.inl rfl))
    · rw [show findHeader (r :: rs)
        = (findHeader rs).map (fun p => (p.1 + 1, p.2)) from by simp [findHeader, if_neg h]]
      rw [Option.map_eq_none', ih]
      constructor
      · intro hall z hz
        rcases List.mem_cons.mp hz with hzr | hzs
        · rw [hzr]; exact h
        · exact hall z hzs
      · intro hall z hz
        exact hall z (List.mem_cons_of_mem r hz)

theorem findHeader_some_spec :
    ∀ (g : List (List (Option String))) (i c : Nat),
      findHeader g = some (i, c) →
        3 < (nonEmptyIndices (g.getD i [])).length ∧
        (∀ j, j < i → ¬ 3 < (nonEmptyIndices (g.getD j [])).length) ∧
        c = (nonEmptyIndices (g.getD i [])).headD 0 := by
  intro g
  induction g with
  | nil => intro i c h; exact absurd h (by simp [findHeader])
  | cons r rs ih =>
    intro i c h
    by_cases hr : 3 < (nonEmptyIndices r).length
    · rw [show findHeader (r :: rs)
        = some (0, (nonEmptyIndices r).headD 0) from by simp [findHeader, if_pos hr]] at h
      have h2 : ((0 : Nat), (nonEmptyIndices r).headD 0) = (i, c) :=
        Option.some_inj.mp h
      have hi0 : i = 0 := (Prod.ext_iff.mp h2).1.symm
      have hc0 : c = (nonEmptyIndices r).headD 0 := (Prod.ext_iff.mp h2).2.symm
      subst hi0
      refine ⟨hr, ?_, hc0⟩
      intro j hj
      exact absurd hj (Nat.not_lt_zero j)
    · rw [show findHeader (r :: rs)
        = (findHeader rs).map (fun p => (p.1 + 1, p.2)) from by simp [findHeader, if_neg hr]] at h
      rcases Option.map_eq_some'.mp h with ⟨p, hp, hpi⟩
      have hi : i = p.1 + 1 := (Prod.ext_iff.mp hpi).1.symm
      have hc : c = p.2 := (Prod.ext_iff.mp hpi).2.symm
      subst hi
      subst hc
      rcases ih p.1 p.2 (by rw [← hp]) with ⟨h1, h2, h3⟩
      refine ⟨h1, ?_, h3⟩
      intro j hj
      cases j with
      | zero => exact hr
      | succ j' => exact h2 j' (Nat.lt_of_succ_lt_succ hj)

theorem length_le_sheetWidth :
    ∀ (s : List (List (Option String))) (r : List (Option String)), r ∈ s →
      r.length ≤ sheetWidth s := by
  intro s
  induction s with
  | nil => intro r h; exact absurd h (by simp)
  | cons x xs ih =>
    intro r h
    have hsw : sheetWidth (x :: xs) = max x.length (sheetWidth xs) := rfl
    rcases List.mem_cons.mp h with hrx | hrs
    · rw [hsw, hrx]
      exact le_max_left _ _
    · rw [hsw]
      exact le_trans (ih r hrs) (le_max_right _ _)

theorem padGrid_uniform (s : List (List (Option String))) :
    ∀ r ∈ padGrid s, r.length = sheetWidth s := by
  intro r hr
  rcases List.mem_map.mp hr with ⟨r0, hr0, hpad⟩
  rw [← hpad]
  show (r0 ++ List.replicate (sheetWidth s - r0.length) none).length = sheetWidth s
  rw [List.length_append, List.length_replicate]
  exact Nat.add_sub_cancel' (length_le_sheetWidth s r0 hr0)

theorem cleanFrom_no_all_null (g : List (List (Option String))) (i c w : Nat)
    (hg : ∀ r ∈ g, r.length = w) :
    (∀ r ∈ (cleanFrom g i c).data, ∃ cl ∈ r, cl.isSome = true) ∧
    (∀ j, j < (cleanFrom g i c).header.length →
      ∃ r ∈ (cleanFrom g i c).data, (r.getD j none).isSome = true) := by
  have hrows : ∀ r ∈ (g.drop i).map (fun r => r.drop c), r.length = w - c := by
    intro r hr
    rcases List.mem_map.mp hr with ⟨r0, hr0, hdrop⟩
    rw [← hdrop, List.length_drop, hg r0 (List.mem_of_mem_drop hr0)]
  have hdata : (cleanFrom g i c).data
      = (dropAllNullRows (((g.drop i).map (fun r => r.drop c)).drop 1)).map
          (projectRow (keptColsIdx
            (dropAllNullRows (((g.drop i).map (fun r => r.drop c)).drop 1))
            (((g.drop i).map (fun r => r.drop c)).headD []).length)) := rfl
  have hhdr : (cleanFrom g i c).header
      = projectRow (keptColsIdx
            (dropAllNullRows (((g.drop i).map (fun r => r.drop c)).drop 1))
            (((g.drop i).map (fun r => r.drop c)).headD []).length)
          (((g.drop i).map (fun r => r.drop c)).headD []) := rfl
  set rows := (g.drop i).map (fun r => r.drop c) with hrowsdef
  set hdr := rows.headD [] with hhdrdef
  set data := dropAllNullRows (rows.drop 1) with hdatadef
  set cols := keptColsIdx data hdr.length with hcolsdef
  have hdlen : ∀ r ∈ data, r.length = hdr.length := by
    intro r hrd
    have hr1 : r ∈ rows.drop 1 := (List.mem_filter.mp hrd).1
    have hrr : r ∈ rows := List.mem_of_mem_drop hr1
    cases hrows0 : rows with
    | nil => rw [hrows0] at hrr; exact absurd hrr (by simp)
    | cons h0 rest =>
      have hh0 : hdr = h0 := by rw [hhdrdef, hrows0]; rfl
      rw [hrows r hrr, hrows hdr (by rw [hh0, hrows0]; exact List.mem_cons_self _ _)]
  constructor
  · intro r' hr'
    rw [hdata] at hr'
    rcases List.mem_map.mp hr' with ⟨r, hrd, hproj⟩
    have hany : r.any (fun cl => cl.isSome) = true := (List.mem_filter.mp hrd).2
    rcases List.any_eq_true.mp hany with ⟨x, hx, hxs⟩
    rcases List.mem_iff_getElem.mp hx with ⟨jo, hjo, hget⟩
    have hjcols : jo ∈ cols := by
      rw [hcolsdef]
      refine List.mem_filter.mpr ⟨List.mem_range.mpr ?_, ?_⟩
      · rw [← hdlen r hrd]
        exact hjo
      · refine List.any_eq_true.mpr ⟨r, hrd, ?_⟩
        rw [List.getD_eq_getElem r none hjo, hget]
        exact hxs
    refine ⟨x, ?_, hxs⟩
    rw [← hproj]
    refine List.mem_map.mpr ⟨jo, hjcols, ?_⟩
    rw [List.getD_eq_getElem r none hjo, hget]
  · intro j hj
    rw [hhdr] at hj
    have hjc : j < cols.length := by
      simpa [projectRow] using hj
    have hjomem : cols[j] ∈ cols := List.getElem_mem hjc
    have hjomem2 : cols[j] ∈ (List.range hdr.length).filter
        (fun jj => data.any (fun r => (r.getD jj none).isSome)) := hjomem
    have hfilter := List.mem_filter.mp hjomem2
    rcases List.any_eq_true.mp hfilter.2 with ⟨r, hrd, hsome⟩
    refine ⟨projectRow cols r, ?_, ?_⟩
    · rw [hdata]
      exact List.mem_map.mpr ⟨r, hrd, rfl⟩
    · have hlen : j < (projectRow cols r).length := by
        simpa [projectRow] using hjc
      rw [List.getD_eq_getElem _ none hlen,
        show (projectRow cols r)[j] = r.getD cols[j] none from List.getElem_map _]
      exact hsome

theorem clean_excel_eq_of_sel (sheets : List (List (List (Option String))))
    (s : List (List (Option String))) (hsel : selectSheet sheets = some s) :
    clean_excel sheets =
      (if (s.isEmpty || sheetWidth s == 0) then Except.error CleanError.noData
       else
        match findHeader (padGrid s) with
        | none => Except.error CleanError.noHeader
        | some (i, c) => Except.ok (cleanFrom (padGrid s) i c)) := by
  unfold clean_excel
  rw [hsel]

theorem clean_excel_ok_inv {sheets : List (List (List (Option String)))}
    {t : CleanTable} (h : clean_excel sheets = Except.ok t) :
    ∃ s i c, selectSheet sheets = some s ∧
      (s.isEmpty || sheetWidth s == 0) = false ∧
      findHeader (padGrid s) = some (i, c) ∧
      t = cleanFrom (padGrid s) i c := by
  cases hsel : selectSheet sheets with
  | none =>
    unfold clean_excel at h
    rw [hsel] at h
    exact absurd h (by simp)
  | some s =>
    rw [clean_excel_eq_of_sel sheets s hsel] at h
    by_cases hcond : (s.isEmpty || sheetWidth s == 0) = true
    · rw [if_pos hcond] at h
      exact absurd h (by simp)
    · rw [if_neg hcond] at h
      cases hfh : findHeader (padGrid s) with
      | none => rw [hfh] at h; exact absurd h (by simp)
      | some p =>
        obtain ⟨i, c⟩ := p
        rw [hfh] at h
        refine ⟨s, i, c, rfl, Bool.not_eq_true _ ▸ hcond, hfh, ?_⟩
        have h2 : cleanFrom (padGrid s) i c = t := by simpa using h
        exact h2.symm

/-- C9: the Tabular Normalizer's header detection picks the first row
(top to bottom) with more than 3 non-blank cells -- a cell being blank
iff it is null or strips to the empty string -- records the index of
that row's first non-blank cell, drops the rows above the header and
that many leading cells from every remaining row (`cleanFrom`), and
fails with the no-header error when no such row exists. -/
theorem c9_header_detection (sheets : List (List (List (Option String))))
    (s : List (List (Option String)))
    (hsel : selectSheet sheets = some s)
    (hne : (s.isEmpty || sheetWidth s == 0) = false) :
    (findHeader (padGrid s) = none →
      clean_excel sheets = Except.error CleanError.noHeader) ∧
    (∀ i c, findHeader (padGrid s) = some (i, c) →
      3 < (nonEmptyIndices ((padGrid s).getD i [])).length ∧
      (∀ j, j < i → ¬ 3 < (nonEmptyIndices ((padGrid s).getD j [])).length) ∧
      c = (nonEmptyIndices ((padGrid s).getD i [])).headD 0 ∧
      clean_excel sheets = Except.ok (cleanFrom (padGrid s) i c)) := by
  have hrun : ∀ o, findHeader (padGrid s) = o →
      clean_excel sheets
        = (match o with
            | none => Except.error CleanError.noHeader
            | some (i, c) => Except.ok (cleanFrom (padGrid s) i c)) := by
    intro o ho
    rw [clean_excel_eq_of_sel sheets s hsel,
      if_neg (by simp [hne]), ho]
  constructor
  · intro hnone
    exact hrun none hnone
  · intro i c hsome
    rcases findHeader_some_spec (padGrid s) i c hsome with ⟨h1, h2, h3⟩
    exact ⟨h1, h2, h3, hrun (some (i, c)) hsome⟩

/-- C9 witness: a two-sheet workbook whose larger sheet has a noise row
above the header and a decorative empty leading column; the header is
found at row 1, column 1, and the table is re-based there. -/
theorem c9_header_detection_witness :
    (findHeader (padGrid [[none, some "note", none, none],
        [none, some "A", some "B", some "C", some "D"],
        [none, some "1", some "2", some "3", some "4"]]) = none →
      clean_excel [[[some "only", some "row", some "here", some "x"]],
        [[none, some "note", none, none],
         [none, some "A", some "B", some "C", some "D"],
         [none, some "1", some "2", some "3", some "4"]]]
        = Except.error CleanError.noHeader) ∧
    (∀ i c, findHeader (padGrid [[none, some "note", none, none],
        [none, some "A", some "B", some "C", some "D"],
        [none, some "1", some "2", some "3", some "4"]]) = some (i, c) →
      3 < (nonEmptyIndices ((padGrid [[none, some "note", none, none],
        [none, some "A", some "B", some "C", some "D"],
        [none, some "1", some "2", some "3", some "4"]]).getD i [])).length ∧
      (∀ j, j < i → ¬ 3 < (nonEmptyIndices ((padGrid [[none, some "note", none, none],
        [none, some "A", some "B", some "C", some "D"],
        [none, some "1", some "2", some "3", some "4"]]).getD j [])).length) ∧
      c = (nonEmptyIndices ((padGrid [[none, some "note", none, none],
        [none, some "A", some "B", some "C", some "D"],
        [none, some "1", some "2", some "3", some "4"]]).getD i [])).headD 0 ∧
      clean_excel [[[some "only", some "row", some "here", some "x"]],
        [[none, some "note", none, none],
         [none, some "A", some "B", some "C", some "D"],
         [none, some "1", some "2", some "3", some "4"]]]
        = Except.ok (cleanFrom (padGrid [[none, some "note", none, none],
            [none, some "A", some "B", some "C", some "D"],
            [none, some "1", some "2", some "3", some "4"]]) i c)) :=
  c9_header_detection
    [[[some "only", some "row", some "here", some "x"]],
     [[none, some "note", none, none],
      [none, some "A", some "B", some "C", some "D"],
      [none, some "1", some "2", some "3", some "4"]]]
    [[none, some "note", none, none],
     [none, some "A", some "B", some "C", some "D"],
     [none, some "1", some "2", some "3", some "4"]]
    (by decide) (by decide)

/-- C6 (amended): every table produced by the Tabular Normalizer has no
fully-NULL row and no fully-NULL column: every data row keeps at least
one non-null cell and every surviving column is non-null in some data
row.  (The source drops rows with `dropna(how='all')` and columns with
`~df.isnull().all()`, which test for null only; a cell holding a string
of spaces -- blank under the claim's trim-based definition -- does not
count as null, so the claim's stronger trim-based invariant fails, see
the counterexample.) -/
theorem c6_no_all_null_rows_cols (sheets : List (List (List (Option String))))
    (t : CleanTable) (h : clean_excel sheets = Except.ok t) :
    (∀ r ∈ t.data, ∃ cl ∈ r, cl.isSome = true) ∧
    (∀ j, j < t.header.length → ∃ r ∈ t.data, (r.getD j none).isSome = true) := by
  rcases clean_excel_ok_inv h with ⟨s, i, c, _, _, _, ht⟩
  rw [ht]
  exact cleanFrom_no_all_null (padGrid s) i c (sheetWidth s) (padGrid_uniform s)

/-- C6 witness: a workbook whose cleaned output has a non-null cell in
its single data row and in every column. -/
theorem c6_no_all_null_rows_cols_witness :
    (∀ r ∈ (CleanTable.mk [some "A", some "B", some "C", some "D"]
        [[some "1", some "2", some "3", some "4"]]).data,
      ∃ cl ∈ r, cl.isSome = true) ∧
    (∀ j, j < (CleanTable.mk [some "A", some "B", some "C", some "D"]
        [[some "1", some "2", some "3", some "4"]]).header.length →
      ∃ r ∈ (CleanTable.mk [some "A", some "B", some "C", some "D"]
          [[some "1", some "2", some "3", some "4"]]).data,
        (r.getD j none).isSome = true) :=
  c6_no_all_null_rows_cols
    [[[some "A", some "B", some "C", some "D"],
      [some "1", some "2", some "3", some "4"]]]
    (CleanTable.mk [some "A", some "B", some "C", some "D"]
      [[some "1", some "2", some "3", some "4"]])
    (by decide)

/-- C6 counterexample: a data row whose four cells all hold the empty
string survives cleaning untouched, because `dropna(how='all')` only
drops null cells; under the claim's definition of blank (null or
trimming to the empty string) the output contains a fully-blank row,
so the claimed invariant is false on the code. -/
theorem c6_blank_row_survives_cex :
    clean_excel [[[some "A", some "B", some "C", some "D"],
        [some "", some "", some "", some ""]]]
      = Except.ok (CleanTable.mk [some "A", some "B", some "C", some "D"]
          [[some "", some "", some "", some ""]]) ∧
    (∀ cl ∈ [some "", some "", some "", (some "" : Option String)],
      isBlankCell cl = true) := by
  constructor
  · decide
  · decide

/-- C5 (amended): the Tabular Normalizer performs no duplicate-header
check at all.  Whenever a sheet is selected, is non-empty and a header
row is found, `clean_excel` succeeds -- the names in the header row,
duplicated or not, are never examined -- and every failure is one of
the three errors noSheets / noData / noHeader; no failure mode for
ambiguous headers exists. -/
theorem c5_no_duplicate_header_check :
    (∀ (sheets : List (List (List (Option String)))) s i c,
      selectSheet sheets = some s →
      (s.isEmpty || sheetWidth s == 0) = false →
      findHeader (padGrid s) = some (i, c) →
      clean_excel sheets = Except.ok (cleanFrom (padGrid s) i c)) ∧
    (∀ (sheets : List (List (List (Option String)))) (e : CleanError),
      clean_excel sheets = Except.error e →
      e = CleanError.noSheets ∨ e = CleanError.noData ∨ e = CleanError.noHeader) := by
  constructor
  · intro sheets s i c hsel hne hfh
    rw [clean_excel_eq_of_sel sheets s hsel, if_neg (by simp [hne]), hfh]
  · intro sheets e _
    cases e with
    | noSheets => exact Or.inl rfl
    | noData => exact Or.inr (Or.inl rfl)
    | noHeader => exact Or.inr (Or.inr rfl)

/-- C5 witness: a sheet whose header row holds the duplicate name "X"
twice is cleaned successfully. -/
theorem c5_no_duplicate_header_check_witness :
    clean_excel [[[some "X", some "X", some "Y", some "Z"],
        [some "1", some "2", some "3", some "4"]]]
      = Except.ok (cleanFrom (padGrid [[some "X", some "X", some "Y", some "Z"],
          [some "1", some "2", some "3", some "4"]]) 0 0) :=
  c5_no_duplicate_header_check.1
    [[[some "X", some "X", some "Y", some "Z"],
      [some "1", some "2", some "3", some "4"]]]
    [[some "X", some "X", some "Y", some "Z"],
     [some "1", some "2", some "3", some "4"]]
    0 0 (by decide) (by decide) (by decide)

/-- C5 counterexample: the claim says duplicate column names (after
trimming) make the stage fail; on this input the header row carries
"X " and "X" -- duplicates after trimming -- and also the literal
duplicate "Y" twice, yet `clean_excel` succeeds and returns the table,
so no AmbiguousHeaderError behaviour exists in the code. -/
theorem c5_duplicate_header_no_failure_cex :
    clean_excel [[[some "X ", some "X", some "Y", some "Y"],
        [some "1", some "2", some "3", some "4"]]]
      = Except.ok (CleanTable.mk [some "X ", some "X", some "Y", some "Y"]
          [[some "1", some "2", some "3", some "4"]]) ∧
    pyStrip "X " = pyStrip "X" := by
  constructor
  · decide
  · decide

/-- The sentinel owner value used by the source for unresolved rows. -/
def sentinel : String := "Unspecified Unspecified"

/-- A row of the department-filtered LnB table (`filtered_dept`): `code`
is the `Code` column (the spec's group key), `pag` the `PAG` column (the
category key), `owner` the `Member Supervisor` column (`none` models
NaN), and `extra` stands for all remaining columns, which the resolution
stages carry along untouched. -/
structure LRow where
  code : String
  pag : String
  owner : Option String
  extra : String
deriving DecidableEq, Repr

/-- A row of `selected_df` (columns Member Supervisor, Code, PAG). -/
structure SRow where
  ms : Option String
  code : String
  pag : String
deriving DecidableEq, Repr

/-- Projection of `filtered_dept` onto the three columns of `selected_df`. -/
def toSRow (r : LRow) : SRow := ⟨r.owner, r.code, r.pag⟩

/-- Comparison by `Code` for `selected_df.sort_values(by='Code')`. -/
def sCodeLt (a b : SRow) : Prop := strLtB a.code b.code = true

instance : DecidableRel sCodeLt := fun a b => by
  unfold sCodeLt
  infer_instance

/-- `selected_df = filtered_dept[['Member Supervisor','Code','PAG']].sort_values(by='Code')`. -/
def selectedDf (rows : List LRow) : List SRow := sSort sCodeLt (rows.map toSRow)

/-- The groupby key of a row: `(Code, PAG, Member Supervisor)`; pandas
groupby drops rows whose key holds a NaN, hence the `Option`. -/
def sKey (s : SRow) : Option (String × String × String) :=
  s.ms.map (fun o => (s.code, s.pag, o))

/-- Generic three-level lexicographic strict order. -/
def lex3 {A B C : Type} (lA : A → A → Prop) (lB : B → B → Prop)
    (lC : C → C → Prop) (x y : A × B × C) : Prop :=
  lA x.1 y.1 ∨ (x.1 = y.1 ∧ (lB x.2.1 y.2.1 ∨ (x.2.1 = y.2.1 ∧ lC x.2.2 y.2.2)))

/-- Python string strict order as a Prop. -/
def sLt (a b : String) : Prop := strLtB a b = true

instance : DecidableRel sLt := fun a b => by
  unfold sLt
  infer_instance

theorem sLt_asymm : ∀ a b, sLt a b → ¬ sLt b a := by
  intro a b h h2
  have h3 : strLtB b a = true := h2
  rw [strLtB_asymm h] at h3
  exact Bool.false_ne_true h3

theorem sLt_trans : ∀ a b c, sLt a b → sLt b c → sLt a c :=
  fun _ _ _ h1 h2 => strLtB_trans h1 h2

theorem sLt_total : ∀ a b, a = b ∨ sLt a b ∨ sLt b a := by
  intro a b
  cases hab : strLtB a b with
  | true => exact Or.inr (Or.inl hab)
  | false =>
    cases hba : strLtB b a with
    | true => exact Or.inr (Or.inr hba)
    | false => exact Or.inl (strLtB_eq_of_not hab hba)

/-- Reversed order on counts (for `ascending=False` on the Count column). -/
def natGt (m n : Nat) : Prop := n < m

theorem natGt_asymm : ∀ a b, natGt a b → ¬ natGt b a := by
  intro a b h h2
  exact absurd (lt_trans h h2) (lt_irrefl b)

theorem natGt_trans : ∀ a b c, natGt a b → natGt b c → natGt a c := by
  intro a b c h1 h2
  exact lt_trans h2 h1

theorem natGt_total : ∀ a b : Nat, a = b ∨ natGt a b ∨ natGt b a := by
  intro a b
  rcases lt_trichotomy a b with h | h | h
  · exact Or.inr (Or.inr h)
  · exact Or.inl h
  · exact Or.inr (Or.inl h)

theorem lex3_asymm {A B C : Type} {lA : A → A → Prop} {lB : B → B → Prop}
    {lC : C → C → Prop}
    (hA : ∀ a b, lA a b → ¬ lA b a) (hB : ∀ a b, lB a b → ¬ lB b a)
    (hC : ∀ a b, lC a b → ¬ lC b a) :
    ∀ x y, lex3 lA lB lC x y → ¬ lex3 lA lB lC y x := by
  intro x y h h2
  rcases h with h | ⟨e1, h⟩
  · rcases h2 with h2 | ⟨e2, h2⟩
    · exact hA _ _ h h2
    · rw [e2] at h
      exact hA _ _ h h
  · rcases h2 with h2 | ⟨e2, h2⟩
    · rw [e1] at h2
      exact hA _ _ h2 h2
    · rcases h with h | ⟨f1, h⟩
      · rcases h2 with h2 | ⟨f2, h2⟩
        · exact hB _ _ h h2
        · rw [f2] at h
          exact hB _ _ h h
      · rcases h2 with h2 | ⟨f2, h2⟩
        · rw [f1] at h2
          exact hB _ _ h2 h2
        · exact hC _ _ h h2

theorem lex3_trans {A B C : Type} {lA : A → A → Prop} {lB : B → B → Prop}
    {lC : C → C → Prop}
    (hA : ∀ a b c, lA a b → lA b c → lA a c)
    (hB : ∀ a b c, lB a b → lB b c → lB a c)
    (hC : ∀ a b c, lC a b → lC b c → lC a c) :
    ∀ x y z, lex3 lA lB lC x y → lex3 lA lB lC y z → lex3 lA lB lC x z := by
  intro x y z h1 h2
  rcases h1 with h1 | ⟨e1, h1⟩
  · rcases h2 with h2 | ⟨e2, h2⟩
    · exact Or.inl (hA _ _ _ h1 h2)
    · exact Or.inl (e2 ▸ h1)
  · rcases h2 with h2 | ⟨e2, h2⟩
    · exact Or.inl (e1 ▸ h2)
    · refine Or.inr ⟨e1.trans e2, ?_⟩
      rcases h1 with h1 | ⟨f1, h1⟩
      · rcases h2 with h2 | ⟨f2, h2⟩
        · exact Or.inl (hB _ _ _ h1 h2)
        · exact Or.inl (f2 ▸ h1)
      · rcases h2 with h2 | ⟨f2, h2⟩
        · exact Or.inl (f1 ▸ h2)
        · exact Or.inr ⟨f1.trans f2, hC _ _ _ h1 h2⟩

theorem lex3_total {A B C : Type} {lA : A → A → Prop} {lB : B → B → Prop}
    {lC : C → C → Prop}
    (hA : ∀ a b, a = b ∨ lA a b ∨ lA b a)
    (hB : ∀ a b, a = b ∨ lB a b ∨ lB b a)
    (hC : ∀ a b, a = b ∨ lC a b ∨ lC b a) :
    ∀ x y : A × B × C, x = y ∨ lex3 lA lB lC x y ∨ lex3 lA lB lC y x := by
  intro x y
  rcases hA x.1 y.1 with hEq | h | h
  · rcases hB x.2.1 y.2.1 with hEq2 | h | h
    · rcases hC x.2.2 y.2.2 with hEq3 | h | h
      · refine Or.inl ?_
        have hx : x = (x.1, x.2.1, x.2.2) := rfl
        have hy : y = (y.1, y.2.1, y.2.2) := rfl
        rw [hx, hy, hEq, hEq2, hEq3]
      · exact Or.inr (Or.inl (Or.inr ⟨hEq, Or.inr ⟨hEq2, h⟩⟩))
      · exact Or.inr (Or.inr (Or.inr ⟨hEq.symm, Or.inr ⟨hEq2.symm, h⟩⟩))
    · exact Or.inr (Or.inl (Or.inr ⟨hEq, Or.inl h⟩))
    · exact Or.inr (Or.inr (Or.inr ⟨hEq.symm, Or.inl h⟩))
  · exact Or.inr (Or.inl (Or.inl h))
  · exact Or.inr (Or.inr (Or.inl h))

theorem lex3_nlt_trans {A B C : Type} {lA : A → A → Prop} {lB : B → B → Prop}
    {lC : C → C → Prop}
    (hAt : ∀ a b c, lA a b → lA b c → lA a c)
    (hBt : ∀ a b c, lB a b → lB b c → lB a c)
    (hCt : ∀ a b c, lC a b → lC b c → lC a c)
    (hA : ∀ a b, a = b ∨ lA a b ∨ lA b a)
    (hB : ∀ a b, a = b ∨ lB a b ∨ lB b a)
    (hC : ∀ a b, a = b ∨ lC a b ∨ lC b a) :
    ∀ x y z, ¬ lex3 lA lB lC y x → ¬ lex3 lA lB lC z y → ¬ lex3 lA lB lC z x := by
  intro x y z h1 h2 hzx
  rcases lex3_total hA hB hC y z with hEq | h | h
  · exact h1 (hEq ▸ hzx)
  · exact h1 (lex3_trans hAt hBt hCt y z x h hzx)
  · exact h2 h

/-- Strict ascending order on groupby keys `(Code, PAG, Member Supervisor)`,
as pandas sorts group keys. -/
def tripLt (a b : String × String × String) : Prop := lex3 sLt sLt sLt a b

instance : DecidableRel tripLt := fun a b => by
  unfold tripLt lex3 sLt
  infer_instance

/-- A row of the count table `grouped_df_gcc`
(columns Code, PAG, Member Supervisor, Count). -/
structure GEntry where
  code : String
  pag : String
  owner : String
  count : Nat
deriving DecidableEq, Repr

/-- Occurrences of a groupby key among the selected rows. -/
def countKey (sel : List SRow) (k : String × String × String) : Nat :=
  (sel.filter (fun s => sKey s = some k)).length

/-- Model of `selected_df.groupby(['Code','PAG','Member Supervisor']).size()
.reset_index(name='Count')`: the distinct non-null keys, sorted
ascending, each with its occurrence count.  No filtering of the
sentinel owner happens here: a row whose owner is the sentinel
contributes to the counts like any other row. -/
def groupedCounts (sel : List SRow) : List GEntry :=
  (sSort tripLt (dedupKeepFirst (fun k : String × String × String => k)
      (sel.filterMap sKey))).map
    (fun k => ⟨k.1, k.2.1, k.2.2, countKey sel k⟩)

/-- The sort key of `sort_values(by=['Code','PAG','Count'],
ascending=[True, True, False])`: Code and PAG ascending, Count
descending.  Ties (same Code, PAG and Count) are left to the sort's
stability, exactly as pandas' stable lexsort does. -/
def gLt (a b : GEntry) : Prop :=
  lex3 sLt sLt natGt (a.code, a.pag, a.count) (b.code, b.pag, b.count)

instance : DecidableRel gLt := fun a b => by
  unfold gLt lex3 sLt natGt
  infer_instance

/-- The `drop_duplicates` key `['PAG','Code']`. -/
def gKey (e : GEntry) : String × String := (e.pag, e.code)

/-- Model of `grouped_counts_sorted` (lines 98-102): sort the count
table by Code and PAG ascending and Count descending, then keep the
first row of every `(PAG, Code)` pair. -/
def groupedCountsSorted (sel : List SRow) : List GEntry :=
  dedupKeepFirst gKey (sSort gLt (groupedCounts sel))

/-- `unspecified_df = selected_df[selected_df['Member Supervisor'] ==
'Unspecified Unspecified']`. -/
def unspecifiedDf (sel : List SRow) : List SRow :=
  sel.filter (fun s => s.ms = some sentinel)

/-- A row of `joined_df`: columns Code, PAG, Member Supervisor_New,
Count from the count table and Member Supervisor from the sentinel rows. -/
structure JRow where
  code : String
  pag : String
  msNew : String
  count : Nat
  ms : Option String
deriving DecidableEq, Repr

/-- Model of `joined_df = pd.merge(grouped_counts_sorted,
unspecified_df, on=['PAG','Code'], how='inner').drop_duplicates()`. -/
def joinedDf (rows : List LRow) : List JRow :=
  dedupKeepFirst (fun j : JRow => j)
    ((groupedCountsSorted (selectedDf rows)).flatMap (fun g =>
      (unspecifiedDf (selectedDf rows)).filterMap (fun u =>
        if u.pag = g.pag ∧ u.code = g.code
        then some ⟨g.code, g.pag, g.owner, g.count, u.ms⟩ else none)))

/-- The rows that one `filtered_dept` row becomes under the
Majority-Vote Resolver: the left merge with `joined_df` on
`['PAG','Code','Member Supervisor']` (lines 107-112) followed by the
`np.where` replacement (lines 114-118) and the drop of the helper
columns (line 120). -/
def expand3 (rows : List LRow) (r : LRow) : List LRow :=
  let ms := (joinedDf rows).filter
    (fun j => j.pag = r.pag ∧ j.code = r.code ∧ j.ms = r.owner)
  let merged := if ms.isEmpty then [(r, (none : Option String))]
                else ms.map (fun j => (r, some j.msNew))
  merged.map (fun q =>
    { q.1 with owner := if q.1.owner = some sentinel then q.2 else q.1.owner })

/-- The Majority-Vote Resolver (`b_test`, lines 90-120). -/
def stage3 (rows : List LRow) : List LRow := rows.flatMap (expand3 rows)

/-- A row of the master leaders file (columns PAG, Member Supervisor,
DIRECTOR). -/
structure MRow where
  pag : String
  ms : Option String
  dir : Option String
deriving DecidableEq, Repr

/-- Lines 124-125: strip every string cell, then strip and upper-case
the PAG column. -/
def normMaster (m : MRow) : MRow :=
  ⟨pyUpper (pyStrip m.pag), m.ms.map pyStrip, m.dir.map pyStrip⟩

/-- Model of `df_leaders_select` (lines 127-133): the still-sentinel
rows `b_test1`, inner-merged on PAG with the master deduplicated by
PAG, projected to `['PAG','Code','Member Supervisor_y']`. -/
def leadersSelect (rows3 : List LRow) (master : List MRow) :
    List (String × String × Option String) :=
  let masterN := master.map normMaster
  let bTest1 := rows3.filter (fun r => r.owner = some sentinel)
  let mDedup := dedupKeepFirst (fun m : MRow => m.pag) masterN
  bTest1.flatMap (fun r => mDedup.filterMap (fun m =>
    if m.pag = r.pag then some (r.pag, r.code, m.ms) else none))

/-- The rows that one `b_test` row becomes under the Master-Lookup
Resolver: the left merge with `df_leaders_select` on `['PAG','Code']`
(lines 135-140) followed by the `np.where` replacement (lines 142-146)
and the drop of the helper column (line 148). -/
def expand4 (rows3 : List LRow) (master : List MRow) (r : LRow) : List LRow :=
  let ms := (leadersSelect rows3 master).filter
    (fun q => q.1 = r.pag ∧ q.2.1 = r.code)
  let merged := if ms.isEmpty then [(r, (none : Option String))]
                else ms.map (fun q => (r, q.2.2))
  merged.map (fun q =>
    { q.1 with owner := if q.1.owner = some sentinel then q.2 else q.1.owner })

/-- The Master-Lookup Resolver (`df_leaders_final`, lines 122-148). -/
def stage4 (rows3 : List LRow) (master : List MRow) : List LRow :=
  rows3.flatMap (expand4 rows3 master)

/-- The full resolution cascade of `process_cleaned_excel`: majority
vote, then master lookup. -/
def resolveOwners (rows : List LRow) (master : List MRow) : List LRow :=
  stage4 (stage3 rows) master

/-- The winning count-table row for a `(PAG, Code)` pair: the row of
`grouped_counts_sorted` carrying that pair (its owner is the value
`Member Supervisor_New` a sentinel row receives). -/
def winnerE (rows : List LRow) (pag code : String) : Option GEntry :=
  (groupedCountsSorted (selectedDf rows)).find?
    (fun e => e.pag = pag ∧ e.code = code)

theorem sLt_irrefl (a : String) : ¬ sLt a a := by
  intro h
  have h2 : strLtB a a = true := h
  rw [strLtB_irrefl] at h2
  exact Bool.false_ne_true h2

theorem tripLt_asymm : ∀ a b, tripLt a b → ¬ tripLt b a :=
  fun a b => lex3_asymm sLt_asymm sLt_asymm sLt_asymm a b

theorem tripLt_nlt_trans :
    ∀ a b c, ¬ tripLt b a → ¬ tripLt c b → ¬ tripLt c a :=
  fun a b c => lex3_nlt_trans sLt_trans sLt_trans sLt_trans
    sLt_total sLt_total sLt_total a b c

theorem tripLt_total :
    ∀ a b : String × String × String, a = b ∨ tripLt a b ∨ tripLt b a := by
  intro a b
  rcases lex3_total sLt_total sLt_total sLt_total a b with h | h
  · have ha : a = (a.1, a.2.1, a.2.2) := rfl
    exact Or.inl h
  · exact Or.inr h

theorem gLt_asymm : ∀ a b, gLt a b → ¬ gLt b a :=
  fun a b => lex3_asymm sLt_asymm sLt_asymm natGt_asymm _ _

theorem gLt_nlt_trans : ∀ a b c, ¬ gLt b a → ¬ gLt c b → ¬ gLt c a :=
  fun a b c => lex3_nlt_trans sLt_trans sLt_trans natGt_trans
    sLt_total sLt_total natGt_total _ _ _

theorem gLt_same_key {a b : GEntry} (h1 : a.code = b.code) (h2 : a.pag = b.pag) :
    gLt a b ↔ b.count < a.count := by
  constructor
  · intro h
    rcases h with h | ⟨_, h⟩
    · rw [h1] at h
      exact absurd h (sLt_irrefl b.code)
    · rcases h with h | ⟨_, h⟩
      · rw [h2] at h
        exact absurd h (sLt_irrefl b.pag)
      · exact h
  · intro h
    exact Or.inr ⟨h1, Or.inr ⟨h2, h⟩⟩

/-- Order on count-table rows by `(Code, PAG, Member Supervisor)`,
the order in which `groupby` emits them. -/
def eTripLt (a b : GEntry) : Prop :=
  tripLt (a.code, a.pag, a.owner) (b.code, b.pag, b.owner)

theorem eTripLt_same_key {a b : GEntry} (h1 : a.code = b.code)
    (h2 : a.pag = b.pag) (h : eTripLt a b) : sLt a.owner b.owner := by
  rcases h with h | ⟨_, h⟩
  · rw [h1] at h
    exact absurd h (sLt_irrefl b.code)
  · rcases h with h | ⟨_, h⟩
    · rw [h2] at h
      exact absurd h (sLt_irrefl b.pag)
    · exact h

theorem pairwise_groupedCounts (sel : List SRow) :
    (groupedCounts sel).Pairwise eTripLt := by
  have hnd : (dedupKeepFirst (fun k : String × String × String => k)
      (sel.filterMap sKey)).Nodup :=
    nodup_dedupKeepFirst_id _
  have hsorted : (sSort tripLt (dedupKeepFirst
      (fun k : String × String × String => k) (sel.filterMap sKey))).Pairwise
      (fun a b => ¬ tripLt b a) :=
    sSort_pairwise tripLt tripLt_asymm tripLt_nlt_trans _
  have hnd2 : (sSort tripLt (dedupKeepFirst
      (fun k : String × String × String => k) (sel.filterMap sKey))).Nodup :=
    ((sSort_perm tripLt _).nodup_iff).mpr hnd
  have hpw : (sSort tripLt (dedupKeepFirst
      (fun k : String × String × String => k) (sel.filterMap sKey))).Pairwise
      tripLt := by
    have hand := hnd2.and hsorted
    refine hand.imp ?_
    intro a b hab
    rcases tripLt_total a b with h | h | h
    · exact absurd h hab.1
    · exact h
    · exact absurd h hab.2
  exact List.pairwise_map.mpr (hpw.imp (fun h => h))

theorem mem_groupedCounts {sel : List SRow} {e : GEntry} :
    e ∈ groupedCounts sel ↔
      (0 < countKey sel (e.code, e.pag, e.owner) ∧
        e.count = countKey sel (e.code, e.pag, e.owner)) := by
  constructor
  · intro h
    rcases List.mem_map.mp h with ⟨k, hk, hmk⟩
    have hk2 : k ∈ dedupKeepFirst (fun k : String × String × String => k)
        (sel.filterMap sKey) := (mem_sSort tripLt).mp hk
    have hk3 : k ∈ sel.filterMap sKey := mem_dedupKeepFirst_id.mp hk2
    rcases List.mem_filterMap.mp hk3 with ⟨s, hs, hsk⟩
    have hke : (e.code, e.pag, e.owner) = k := by
      rw [← hmk]
    rw [hke, ← hmk]
    have hpos : 0 < countKey sel k := by
      have hmemf : s ∈ sel.filter (fun s => sKey s = some k) :=
        List.mem_filter.mpr ⟨hs, by simp [hsk]⟩
      have := List.length_pos.mpr (List.ne_nil_of_mem hmemf)
      exact this
    exact ⟨hpos, rfl⟩
  · rintro ⟨hpos, hcnt⟩
    have hex : ∃ s ∈ sel, sKey s = some (e.code, e.pag, e.owner) := by
      rcases List.exists_mem_of_length_pos hpos with ⟨s, hsmem⟩
      rcases List.mem_filter.mp hsmem with ⟨hs, hsk⟩
      exact ⟨s, hs, by simpa using hsk⟩
    have hk3 : (e.code, e.pag, e.owner) ∈ sel.filterMap sKey := by
      rcases hex with ⟨s, hs, hsk⟩
      exact List.mem_filterMap.mpr ⟨s, hs, hsk⟩
    have hk : (e.code, e.pag, e.owner) ∈ sSort tripLt (dedupKeepFirst
        (fun k : String × String × String => k) (sel.filterMap sKey)) :=
      (mem_sSort tripLt).mpr (mem_dedupKeepFirst_id.mpr hk3)
    refine List.mem_map.mpr ⟨(e.code, e.pag, e.owner), hk, ?_⟩
    show GEntry.mk e.code e.pag e.owner (countKey sel (e.code, e.pag, e.owner)) = e
    rw [← hcnt]

theorem eq_of_pairwise_key_ne {key : α → κ} :
    ∀ {l : List α}, l.Pairwise (fun a b => key a ≠ key b) →
      ∀ {a b}, a ∈ l → b ∈ l → key a = key b → a = b := by
  intro l
  induction l with
  | nil => intro _ a b ha; exact absurd ha (by simp)
  | cons x xs ih =>
    intro hpw a b ha hb hk
    rcases List.pairwise_cons.mp hpw with ⟨hx, hxs⟩
    rcases List.mem_cons.mp ha with hax | hax
    · rcases List.mem_cons.mp hb with hbx | hbx
      · rw [hax, hbx]
      · rw [hax] at hk
        exact absurd hk (hx b hbx)
    · rcases List.mem_cons.mp hb with hbx | hbx
      · rw [hbx] at hk
        exact absurd hk.symm (hx a hax)
      · exact ih hxs hax hbx hk

theorem filter_eq_single {p : α → Bool} {l : List α} {a : α}
    (hnd : l.Nodup) (ha : a ∈ l) (hpa : p a = true)
    (huniq : ∀ x ∈ l, p x = true → x = a) : l.filter p = [a] := by
  induction l with
  | nil => exact absurd ha (by simp)
  | cons x xs ih =>
    rcases List.pairwise_cons.mp hnd with ⟨hx, hxs⟩
    rcases List.mem_cons.mp ha with hax | hax
    · cases hax
      rw [List.filter_cons_of_pos hpa]
      have hnone : xs.filter p = [] := by
        rw [List.filter_eq_nil_iff]
        intro z hz hpz
        have hza : z = a := huniq z (List.mem_cons_of_mem a hz) hpz
        exact (hx z hz) hza.symm
      rw [hnone]
    · have hpx : p x = false := by
        cases hpx : p x with
        | false => rfl
        | true =>
          have := huniq x (List.mem_cons_self x xs) hpx
          rw [this] at hx
          exact absurd rfl (hx a hax)
      rw [List.filter_cons_of_neg (by simp [hpx])]
      exact ih hxs hax (fun z hz hpz => huniq z (List.mem_cons_of_mem x hz) hpz)

theorem winnerE_eq_find_sorted (rows : List LRow) (pag code : String) :
    winnerE rows pag code
      = (sSort gLt (groupedCounts (selectedDf rows))).find?
          (fun e => e.pag = pag ∧ e.code = code) := by
  refine find?_dedupKeepFirst gKey _ ?_ _
  intro x y hxy
  have h1 : x.pag = y.pag := congrArg Prod.fst hxy
  have h2 : x.code = y.code := congrArg Prod.snd hxy
  simp [h1, h2]

theorem winnerE_spec {rows : List LRow} {pag code : String} {e : GEntry}
    (hw : winnerE rows pag code = some e) :
    e.pag = pag ∧ e.code = code ∧
    e ∈ groupedCounts (selectedDf rows) ∧
    (∀ e' ∈ groupedCounts (selectedDf rows), e'.pag = pag → e'.code = code →
      e'.count ≤ e.count ∧
      (e'.count = e.count → strLeB e.owner e'.owner = true)) := by
  rw [winnerE_eq_find_sorted rows pag code] at hw
  have hpe : e.pag = pag ∧ e.code = code := by
    have := List.find?_some hw
    simpa using this
  have hmemS : e ∈ sSort gLt (groupedCounts (selectedDf rows)) :=
    List.mem_of_find?_eq_some hw
  have hmemL : e ∈ groupedCounts (selectedDf rows) :=
    (mem_sSort gLt).mp hmemS
  have hpairS : (sSort gLt (groupedCounts (selectedDf rows))).Pairwise
      (fun a b => ¬ gLt b a) :=
    sSort_pairwise gLt gLt_asymm gLt_nlt_trans _
  refine ⟨hpe.1, hpe.2, hmemL, ?_⟩
  intro e' hmem' hpag' hcode'
  have hmemS' : e' ∈ sSort gLt (groupedCounts (selectedDf rows)) :=
    (mem_sSort gLt).mpr hmem'
  have hcnt : e'.count ≤ e.count := by
    rcases find?_min hpairS hw e' hmemS' (by simp [hpag', hcode']) with heq | hnl
    · rw [heq]
    · by_contra hlt
      push_neg at hlt
      exact hnl ((gLt_same_key (hcode'.trans hpe.2.symm)
        (hpag'.trans hpe.1.symm)).mpr hlt)
  refine ⟨hcnt, ?_⟩
  intro hce
  by_cases heq : e' = e
  · rw [heq]
    show (!strLtB e.owner e.owner) = true
    rw [strLtB_irrefl]
    rfl
  · have hclass : ∀ a b : GEntry,
        (decide (a.pag = pag ∧ a.code = code ∧ a.count = e.count)) = true →
        (decide (b.pag = pag ∧ b.code = code ∧ b.count = e.count)) = true →
        ¬ gLt a b := by
      intro a b hda hdb
      rcases (by simpa using hda : a.pag = pag ∧ a.code = code ∧ a.count = e.count)
        with ⟨ha1, ha2, ha3⟩
      rcases (by simpa using hdb : b.pag = pag ∧ b.code = code ∧ b.count = e.count)
        with ⟨hb1, hb2, hb3⟩
      intro hlt
      have := (gLt_same_key (ha2.trans hb2.symm) (ha1.trans hb1.symm)).mp hlt
      rw [ha3, hb3] at this
      exact lt_irrefl _ this
    have hstab : (sSort gLt (groupedCounts (selectedDf rows))).filter
          (fun x => decide (x.pag = pag ∧ x.code = code ∧ x.count = e.count))
        = (groupedCounts (selectedDf rows)).filter
          (fun x => decide (x.pag = pag ∧ x.code = code ∧ x.count = e.count)) :=
      filter_sSort gLt _ hclass _
    rcases filter_eq_cons_of_find? hw
        (p := fun x => decide (x.pag = pag ∧ x.code = code ∧ x.count = e.count))
        (fun z hz => by
          rcases (by simpa using hz : z.pag = pag ∧ z.code = code ∧ z.count = e.count)
            with ⟨h1, h2, _⟩
          simp [h1, h2])
        (by simp [hpe.1, hpe.2]) with ⟨t, ht⟩
    have hLfilter : (groupedCounts (selectedDf rows)).filter
        (fun x => decide (x.pag = pag ∧ x.code = code ∧ x.count = e.count))
        = e :: t := by
      rw [← hstab, ht]
    have hpairL : ((groupedCounts (selectedDf rows)).filter
        (fun x => decide (x.pag = pag ∧ x.code = code ∧ x.count = e.count))).Pairwise
        eTripLt :=
      (pairwise_groupedCounts (selectedDf rows)).filter _
    rw [hLfilter] at hpairL
    have hmemF : e' ∈ (groupedCounts (selectedDf rows)).filter
        (fun x => decide (x.pag = pag ∧ x.code = code ∧ x.count = e.count)) :=
      List.mem_filter.mpr ⟨hmem', by simp [hpag', hcode', hce]⟩
    rw [hLfilter] at hmemF
    rcases List.mem_cons.mp hmemF with h1 | h1
    · exact absurd h1 heq
    · have hlt : eTripLt e e' := (List.pairwise_cons.mp hpairL).1 e' h1
      have hsl : sLt e.owner e'.owner :=
        eTripLt_same_key (hpe.2.trans hcode'.symm) (hpe.1.trans hpag'.symm) hlt
      show (!strLtB e'.owner e.owner) = true
      rw [strLtB_asymm hsl]
      rfl

theorem mem_selectedDf {rows : List LRow} {r : LRow} (hr : r ∈ rows) :
    toSRow r ∈ selectedDf rows :=
  (mem_sSort sCodeLt).mpr (List.mem_map.mpr ⟨r, hr, rfl⟩)

theorem winnerE_isSome {rows : List LRow} {r : LRow}
    (hr : r ∈ rows) (ho : r.owner ≠ none) :
    ∃ e, winnerE rows r.pag r.code = some e := by
  rcases Option.ne_none_iff_exists'.mp ho with ⟨o, hoo⟩
  cases hfind : winnerE rows r.pag r.code with
  | some e => exact ⟨e, rfl⟩
  | none =>
    exfalso
    rw [winnerE_eq_find_sorted] at hfind
    have hall := List.find?_eq_none.mp hfind
    have hcnt : 0 < countKey (selectedDf rows) (r.code, r.pag, o) := by
      have hmem : toSRow r ∈ (selectedDf rows).filter
          (fun s => sKey s = some (r.code, r.pag, o)) := by
        refine List.mem_filter.mpr ⟨mem_selectedDf hr, ?_⟩
        simp [sKey, toSRow, hoo]
      exact List.length_pos.mpr (List.ne_nil_of_mem hmem)
    have hentry : GEntry.mk r.code r.pag o
        (countKey (selectedDf rows) (r.code, r.pag, o))
        ∈ groupedCounts (selectedDf rows) :=
      mem_groupedCounts.mpr ⟨hcnt, rfl⟩
    have hentry2 : GEntry.mk r.code r.pag o
        (countKey (selectedDf rows) (r.code, r.pag, o))
        ∈ sSort gLt (groupedCounts (selectedDf rows)) :=
      (mem_sSort gLt).mpr hentry
    exact hall _ hentry2 (by simp)

theorem mem_joinedDf {rows : List LRow} {j : JRow} (hj : j ∈ joinedDf rows) :
    j.ms = some sentinel ∧
    ∃ g ∈ groupedCountsSorted (selectedDf rows),
      j = ⟨g.code, g.pag, g.owner, g.count, some sentinel⟩ := by
  have hj2 : j ∈ (groupedCountsSorted (selectedDf rows)).flatMap (fun g =>
      (unspecifiedDf (selectedDf rows)).filterMap (fun u =>
        if u.pag = g.pag ∧ u.code = g.code
        then some ⟨g.code, g.pag, g.owner, g.count, u.ms⟩ else none)) :=
    mem_dedupKeepFirst_id.mp hj
  rcases List.mem_flatMap.mp hj2 with ⟨g, hg, hjg⟩
  rcases List.mem_filterMap.mp hjg with ⟨u, hu, heq⟩
  have hums : u.ms = some sentinel := by
    have := (List.mem_filter.mp hu).2
    simpa using this
  by_cases hcond : u.pag = g.pag ∧ u.code = g.code
  · rw [if_pos hcond] at heq
    have hje : j = ⟨g.code, g.pag, g.owner, g.count, u.ms⟩ :=
      (Option.some_inj.mp heq).symm
    rw [hje, hums]
    exact ⟨rfl, g, hg, rfl⟩
  · rw [if_neg hcond] at heq
    exact absurd heq (by simp)

theorem joinedDf_nodup (rows : List LRow) : (joinedDf rows).Nodup :=
  nodup_dedupKeepFirst_id _

theorem groupedCountsSorted_key_unique {sel : List SRow} {g g' : GEntry}
    (hg : g ∈ groupedCountsSorted sel) (hg' : g' ∈ groupedCountsSorted sel)
    (hk : gKey g = gKey g') : g = g' :=
  eq_of_pairwise_key_ne (pairwise_keys_dedupSeen gKey [] _) hg hg' hk

theorem expand3_sentinel {rows : List LRow} {r : LRow} {e : GEntry}
    (hr : r ∈ rows) (hs : r.owner = some sentinel)
    (hw : winnerE rows r.pag r.code = some e) :
    expand3 rows r = [{ r with owner := some e.owner }] := by
  have hgmem : e ∈ groupedCountsSorted (selectedDf rows) :=
    List.mem_of_find?_eq_some hw
  have hpe : e.pag = r.pag ∧ e.code = r.code := by
    have := List.find?_some hw
    simpa using this
  have humem : toSRow r ∈ unspecifiedDf (selectedDf rows) := by
    refine List.mem_filter.mpr ⟨mem_selectedDf hr, ?_⟩
    simp [toSRow, hs]
  have hjr : (⟨e.code, e.pag, e.owner, e.count, some sentinel⟩ : JRow)
      ∈ joinedDf rows := by
    refine mem_dedupKeepFirst_id.mpr ?_
    refine List.mem_flatMap.mpr ⟨e, hgmem, ?_⟩
    refine List.mem_filterMap.mpr ⟨toSRow r, humem, ?_⟩
    rw [if_pos (by exact ⟨hpe.1.symm, hpe.2.symm⟩)]
    show some (⟨e.code, e.pag, e.owner, e.count, r.owner⟩ : JRow) = _
    rw [hs]
  have hfil : (joinedDf rows).filter
      (fun j => j.pag = r.pag ∧ j.code = r.code ∧ j.ms = r.owner)
      = [⟨e.code, e.pag, e.owner, e.count, some sentinel⟩] := by
    refine filter_eq_single (joinedDf_nodup rows) hjr (by simp [hpe.1, hpe.2, hs]) ?_
    intro x hx hpx
    rcases (by simpa using hpx :
        x.pag = r.pag ∧ x.code = r.code ∧ x.ms = r.owner) with ⟨h1, h2, h3⟩
    rcases mem_joinedDf hx with ⟨_, g', hg', hxg⟩
    have hgg : g' = e := by
      refine groupedCountsSorted_key_unique hg' hgmem ?_
      show (g'.pag, g'.code) = (e.pag, e.code)
      have hxp : x.pag = g'.pag := by rw [hxg]
      have hxc : x.code = g'.code := by rw [hxg]
      rw [← hxp, ← hxc, h1, h2, hpe.1, hpe.2]
    rw [hxg, hgg]
  unfold expand3
  rw [hfil]
  simp [hs]

theorem expand3_nonsentinel {rows : List LRow} {r : LRow}
    (hns : r.owner ≠ some sentinel) : expand3 rows r = [r] := by
  have hfil : (joinedDf rows).filter
      (fun j => j.pag = r.pag ∧ j.code = r.code ∧ j.ms = r.owner) = [] := by
    rw [List.filter_eq_nil_iff]
    intro j hj hpj
    rcases (by simpa using hpj :
        j.pag = r.pag ∧ j.code = r.code ∧ j.ms = r.owner) with ⟨_, _, h3⟩
    have hms : j.ms = some sentinel := (mem_joinedDf hj).1
    rw [h3] at hms
    exact hns hms
  unfold expand3
  rw [hfil]
  simp [hns]

theorem mem_leadersSelect {rows3 : List LRow} {master : List MRow}
    {q : String × String × Option String} (hq : q ∈ leadersSelect rows3 master) :
    (∃ r ∈ rows3, r.owner = some sentinel ∧ q.1 = r.pag ∧ q.2.1 = r.code) ∧
    (∃ m ∈ master, (normMaster m).pag = q.1 ∧ (normMaster m).ms = q.2.2) := by
  unfold leadersSelect at hq
  rcases List.mem_flatMap.mp hq with ⟨r, hr, hq2⟩
  rcases List.mem_filter.mp hr with ⟨hrmem, hrsent⟩
  rcases List.mem_filterMap.mp hq2 with ⟨m', hm', heq⟩
  have hm'2 : m' ∈ (master.map normMaster) :=
    (mem_dedupSeen (fun m : MRow => m.pag) [] _ m' hm').1
  rcases List.mem_map.mp hm'2 with ⟨m, hm, hmn⟩
  by_cases hcond : m'.pag = r.pag
  · rw [if_pos hcond] at heq
    have hqe : q = (r.pag, r.code, m'.ms) := (Option.some_inj.mp heq).symm
    constructor
    · exact ⟨r, hrmem, by simpa using hrsent, by rw [hqe], by rw [hqe]⟩
    · refine ⟨m, hm, ?_, ?_⟩
      · rw [hmn, hqe]
        exact hcond
      · rw [hmn, hqe]
  · rw [if_neg hcond] at heq
    exact absurd heq (by simp)

theorem leadersSelect_no_pag {rows3 : List LRow} {master : List MRow} {r : LRow}
    (hnom : ∀ m ∈ master, (normMaster m).pag ≠ r.pag) :
    (leadersSelect rows3 master).filter
      (fun q => q.1 = r.pag ∧ q.2.1 = r.code) = [] := by
  rw [List.filter_eq_nil_iff]
  intro q hq hpq
  rcases (by simpa using hpq : q.1 = r.pag ∧ q.2.1 = r.code) with ⟨h1, _⟩
  rcases (mem_leadersSelect hq).2 with ⟨m, hm, hmp, _⟩
  exact (hnom m hm) (hmp.trans h1)

theorem expand4_no_master {rows3 : List LRow} {master : List MRow} {r : LRow}
    (hs : r.owner = some sentinel)
    (hnom : ∀ m ∈ master, (normMaster m).pag ≠ r.pag) :
    expand4 rows3 master r = [{ r with owner := none }] := by
  unfold expand4
  rw [leadersSelect_no_pag hnom]
  simp [hs]

theorem expand4_output {rows3 : List LRow} {master : List MRow} {r r' : LRow}
    (hr' : r' ∈ expand4 rows3 master r) :
    r'.code = r.code ∧ r'.pag = r.pag ∧ r'.extra = r.extra ∧
    ((r.owner ≠ some sentinel ∧ r'.owner = r.owner) ∨
     (r.owner = some sentinel ∧
       (r'.owner = none ∨ ∃ m ∈ master, (normMaster m).ms = r'.owner))) := by
  simp only [expand4] at hr'
  by_cases hc : ((leadersSelect rows3 master).filter
      (fun q => q.1 = r.pag ∧ q.2.1 = r.code)).isEmpty
  · rw [if_pos hc] at hr'
    rcases List.mem_map.mp hr' with ⟨p, hp, hpr⟩
    have hpe : p = (r, (none : Option String)) := by simpa using hp
    rw [hpe] at hpr
    by_cases hs : r.owner = some sentinel
    · rw [← hpr]
      refine ⟨rfl, rfl, rfl, Or.inr ⟨hs, Or.inl ?_⟩⟩
      show (if r.owner = some sentinel then none else r.owner) = none
      rw [if_pos hs]
    · rw [← hpr]
      refine ⟨rfl, rfl, rfl, Or.inl ⟨hs, ?_⟩⟩
      show (if r.owner = some sentinel then none else r.owner) = r.owner
      rw [if_neg hs]
  · rw [if_neg hc] at hr'
    rcases List.mem_map.mp hr' with ⟨p, hp, hpr⟩
    rcases List.mem_map.mp hp with ⟨q, hq, hqp⟩
    have hqmem : q ∈ leadersSelect rows3 master := (List.mem_filter.mp hq).1
    rcases (mem_leadersSelect hqmem).2 with ⟨m, hm, _, hmq⟩
    rw [← hqp] at hpr
    by_cases hs : r.owner = some sentinel
    · rw [← hpr]
      refine ⟨rfl, rfl, rfl, Or.inr ⟨hs, Or.inr ⟨m, hm, ?_⟩⟩⟩
      show (normMaster m).ms = (if r.owner = some sentinel then q.2.2 else r.owner)
      rw [if_pos hs, hmq]
    · rw [← hpr]
      refine ⟨rfl, rfl, rfl, Or.inl ⟨hs, ?_⟩⟩
      show (if r.owner = some sentinel then q.2.2 else r.owner) = r.owner
      rw [if_neg hs]

theorem expand4_nonsentinel {rows3 : List LRow} {master : List MRow} {r : LRow}
    (hns : r.owner ≠ some sentinel) :
    ∀ r' ∈ expand4 rows3 master r, r' = r := by
  intro r' hr'
  rcases expand4_output hr' with ⟨h1, h2, h3, h4 | h4⟩
  · rcases h4 with ⟨_, h5⟩
    show r' = r
    have : r' = ⟨r'.code, r'.pag, r'.owner, r'.extra⟩ := rfl
    rw [this, h1, h2, h3, h5]
  · exact absurd h4.1 hns

/-- C1 (amended): the frequency table of the Majority-Vote Resolver is
built from ALL rows whose owner is non-null -- rows carrying the
sentinel owner included.  A triple `(Code, PAG, owner)` appears in the
count table with count `n` exactly when `n` is positive and equals the
number of rows carrying that exact triple; taking `owner := sentinel`
shows that sentinel occurrences do contribute their own entry, so the
replacement picked for a sentinel row is the most frequent owner among
all its peers, the sentinel itself included (and may be the sentinel). -/
theorem c1_counts_include_sentinel (rows : List LRow) (c p o : String) (n : Nat) :
    GEntry.mk c p o n ∈ groupedCounts (selectedDf rows) ↔
      (0 < n ∧
        n = (rows.filter
          (fun r => r.code = c ∧ r.pag = p ∧ r.owner = some o)).length) := by
  have hcnt : countKey (selectedDf rows) (c, p, o)
      = (rows.filter
          (fun r => r.code = c ∧ r.pag = p ∧ r.owner = some o)).length := by
    unfold countKey
    rw [← List.countP_eq_length_filter, ← List.countP_eq_length_filter]
    have hperm : (selectedDf rows).Perm (rows.map toSRow) := sSort_perm _ _
    rw [hperm.countP_eq, List.countP_map]
    refine List.countP_congr ?_
    intro r _
    cases ho : r.owner with
    | none => simp [sKey, toSRow, Function.comp, ho]
    | some o' => simp [sKey, toSRow, Function.comp, ho]
  rw [mem_groupedCounts]
  show (0 < countKey (selectedDf rows) (c, p, o) ∧
      n = countKey (selectedDf rows) (c, p, o)) ↔ _
  rw [hcnt]
  constructor
  · rintro ⟨h1, h2⟩
    exact ⟨by rw [h2]; exact h1, h2⟩
  · rintro ⟨h1, h2⟩
    exact ⟨by rw [← h2]; exact h1, h2⟩

/-- Fixture for the C1 counterexample: two sentinel rows and one Alice
row in the same `(PAG, Code)` group. -/
def c1rows : List LRow :=
  [⟨"C1", "P", some sentinel, "1"⟩, ⟨"C1", "P", some sentinel, "2"⟩,
   ⟨"C1", "P", some "Alice", "3"⟩]

/-- C1 counterexample: the claim says the count table excludes sentinel
rows and that a sentinel row resolves to the most frequent non-sentinel
owner of its peers (here "Alice").  On this input the count table holds
an entry for the sentinel itself with count 2 (its two occurrences
contribute), the winning owner for the group is the sentinel, and the
Majority-Vote Resolver leaves both sentinel rows unchanged instead of
resolving them to "Alice". -/
theorem c1_sentinel_in_counts_cex :
    stage3 c1rows = c1rows ∧
    GEntry.mk "C1" "P" sentinel 2 ∈ groupedCounts (selectedDf c1rows) ∧
    winnerE c1rows "P" "C1" = some (GEntry.mk "C1" "P" sentinel 2) := by
  refine ⟨by decide, by decide, by decide⟩

/-- C1 witness: on the fixture of the counterexample, the sentinel
triple is in the count table with count 2 = the number of sentinel rows. -/
theorem c1_counts_include_sentinel_witness :
    GEntry.mk "C1" "P" sentinel 2 ∈ groupedCounts (selectedDf c1rows) ↔
      (0 < 2 ∧
        2 = (c1rows.filter
          (fun r => r.code = "C1" ∧ r.pag = "P" ∧
            r.owner = some sentinel)).length) :=
  c1_counts_include_sentinel c1rows "C1" "P" sentinel 2

/-- C2: when the Majority-Vote Resolver resolves a sentinel row, the
winning count-table row `e` it uses has the maximal count among all
count-table rows of the same `(PAG, Code)` pair, and among rows tied at
that maximal count its owner is the one sorting first lexicographically
(Python string order); the sentinel row is rewritten to exactly that
owner. -/
theorem c2_tie_lex_least (rows : List LRow) (r : LRow) (e : GEntry)
    (hr : r ∈ rows) (hs : r.owner = some sentinel)
    (hw : winnerE rows r.pag r.code = some e) :
    expand3 rows r = [{ r with owner := some e.owner }] ∧
    e ∈ groupedCounts (selectedDf rows) ∧
    (∀ e' ∈ groupedCounts (selectedDf rows), e'.pag = r.pag → e'.code = r.code →
      e'.count ≤ e.count ∧
      (e'.count = e.count → strLeB e.owner e'.owner = true)) := by
  have hspec := winnerE_spec hw
  exact ⟨expand3_sentinel hr hs hw, hspec.2.2.1, hspec.2.2.2⟩

/-- The literal fixture demanded by the claim: Alice x3, Bob x3 and one
sentinel row, all with code "C1" (and category key "P"). -/
def c2rows : List LRow :=
  [⟨"C1", "P", some "Alice", "1"⟩, ⟨"C1", "P", some "Alice", "2"⟩,
   ⟨"C1", "P", some "Alice", "3"⟩, ⟨"C1", "P", some "Bob", "4"⟩,
   ⟨"C1", "P", some "Bob", "5"⟩, ⟨"C1", "P", some "Bob", "6"⟩,
   ⟨"C1", "P", some sentinel, "7"⟩]

/-- C2 witness: on the literal fixture, the counts are Alice 3, Bob 3,
sentinel 1; the winner is Alice (lexicographically first among the tied
maxima) and the sentinel row resolves to "Alice". -/
theorem c2_tie_lex_least_witness :
    expand3 c2rows ⟨"C1", "P", some sentinel, "7"⟩
      = [{ (⟨"C1", "P", some sentinel, "7"⟩ : LRow) with owner := some "Alice" }] ∧
    GEntry.mk "C1" "P" "Alice" 3 ∈ groupedCounts (selectedDf c2rows) ∧
    (∀ e' ∈ groupedCounts (selectedDf c2rows),
      e'.pag = (⟨"C1", "P", some sentinel, "7"⟩ : LRow).pag →
      e'.code = (⟨"C1", "P", some sentinel, "7"⟩ : LRow).code →
      e'.count ≤ (GEntry.mk "C1" "P" "Alice" 3).count ∧
      (e'.count = (GEntry.mk "C1" "P" "Alice" 3).count →
        strLeB (GEntry.mk "C1" "P" "Alice" 3).owner e'.owner = true)) := by
  have h := c2_tie_lex_least c2rows ⟨"C1", "P", some sentinel, "7"⟩
    (GEntry.mk "C1" "P" "Alice" 3) (by decide) (by decide) (by decide)
  exact h

/-- C7: neither resolution stage modifies a row whose owner is already
a non-sentinel value.  A non-sentinel row passes the Majority-Vote
Resolver as exactly itself, and every copy the Master-Lookup Resolver
emits of a non-sentinel row equals that row -- its owner (and every
other column) is untouched. -/
theorem c7_nonsentinel_preserved :
    (∀ (rows : List LRow) (r : LRow), r ∈ rows → r.owner ≠ some sentinel →
      expand3 rows r = [r]) ∧
    (∀ (rows3 : List LRow) (master : List MRow) (r : LRow), r ∈ rows3 →
      r.owner ≠ some sentinel → ∀ r' ∈ expand4 rows3 master r, r' = r) := by
  constructor
  · intro rows r _ hns
    exact expand3_nonsentinel hns
  · intro rows3 master r _ hns
    exact expand4_nonsentinel hns

/-- Fixture for the C7 witness: an Alice row next to sentinel rows that
share its keys, with a master entry for the category key. -/
def c7rows : List LRow :=
  [⟨"C1", "P", some "Alice", "1"⟩, ⟨"C1", "P", some sentinel, "2"⟩]

/-- C7 witness: the Alice row survives both stages unchanged even
though a sentinel row shares its `(PAG, Code)` pair and the master file
carries an entry for PAG "P". -/
theorem c7_nonsentinel_preserved_witness :
    expand3 c7rows ⟨"C1", "P", some "Alice", "1"⟩
      = [⟨"C1", "P", some "Alice", "1"⟩] ∧
    (∀ r' ∈ expand4 (stage3 c7rows) [⟨"P", some "Carol", some "Dan"⟩]
        ⟨"C1", "P", some "Alice", "1"⟩,
      r' = ⟨"C1", "P", some "Alice", "1"⟩) := by
  constructor
  · exact c7_nonsentinel_preserved.1 c7rows ⟨"C1", "P", some "Alice", "1"⟩
      (by decide) (by decide)
  · exact c7_nonsentinel_preserved.2 (stage3 c7rows)
      [⟨"P", some "Carol", some "Dan"⟩] ⟨"C1", "P", some "Alice", "1"⟩
      (by decide) (by decide)

/-- Fixture for C10: two sentinel rows sharing `(PAG, Code)` = ("P",
"C1") plus an Alice row; the sentinel wins the majority vote (count 2),
so both rows still carry the sentinel when the Master-Lookup Resolver
runs. -/
def c10rows : List LRow :=
  [⟨"C1", "P", some sentinel, "1"⟩, ⟨"C1", "P", some sentinel, "2"⟩,
   ⟨"C1", "P", some "Alice", "3"⟩]

/-- The master mapping for C10: one entry for category key "P". -/
def c10master : List MRow := [⟨"P", some "Carol", some "Dan"⟩]

/-- C10: the Master-Lookup Resolver's output can have more rows than
its input.  The two sentinel rows of the fixture both join to the
master entry for PAG "P", so `df_leaders_select` holds two rows keyed
("P", "C1"); the left join back onto the full table fans out and every
row with that key pair is emitted twice: 3 input rows become 6. -/
theorem c10_master_join_fanout :
    (stage3 c10rows).length = 3 ∧
    (stage4 (stage3 c10rows) c10master).length = 6 ∧
    (resolveOwners c10rows c10master).length = 6 := by
  refine ⟨by decide, by decide, by decide⟩

/-- C3 (amended): provided no owner value of the MasterMapping is the
sentinel string (after the stage's own stripping), the resolution
cascade leaves no sentinel owner: every output row's owner differs from
the sentinel; a row still sentinel after the majority vote whose
category key has no MasterMapping entry ends with owner null; and a
sentinel row with no non-sentinel, non-null peer in its
`(group, category)` group is still sentinel after the majority vote
(its own occurrences win the vote), which is exactly the case the
master lookup then turns into null.  Without the proviso the claim is
false: a MasterMapping whose owner is the sentinel string writes the
sentinel back (see the counterexample). -/
theorem c3_cascade_no_sentinel (rows : List LRow) (master : List MRow)
    (hM : ∀ m ∈ master, (normMaster m).ms ≠ some sentinel) :
    (∀ r' ∈ resolveOwners rows master, r'.owner ≠ some sentinel) ∧
    (∀ r ∈ stage3 rows, r.owner = some sentinel →
      (∀ m ∈ master, (normMaster m).pag ≠ r.pag) →
      ∀ r' ∈ expand4 (stage3 rows) master r, r'.owner = none) ∧
    (∀ r ∈ rows, r.owner = some sentinel →
      (∀ p ∈ rows, p.code = r.code → p.pag = r.pag →
        p.owner = some sentinel ∨ p.owner = none) →
      ∀ r1 ∈ expand3 rows r, r1.owner = some sentinel) := by
  refine ⟨?_, ?_, ?_⟩
  · intro r' hr'
    rcases List.mem_flatMap.mp hr' with ⟨r, _, hre⟩
    rcases expand4_output hre with ⟨_, _, _, h | h⟩
    · rw [h.2]
      exact h.1
    · rcases h.2 with h2 | ⟨m, hm, hms⟩
      · rw [h2]
        simp
      · rw [← hms]
        exact hM m hm
  · intro r _ hs hnom r' hr'
    rw [expand4_no_master hs hnom] at hr'
    have hre : r' = { r with owner := none } := by simpa using hr'
    rw [hre]
  · intro r hr hs hpeer r1 hr1
    rcases winnerE_isSome hr (by rw [hs]; simp) with ⟨e, hw⟩
    rw [expand3_sentinel hr hs hw] at hr1
    have hr1e : r1 = { r with owner := some e.owner } := by simpa using hr1
    have hspec := winnerE_spec hw
    rcases mem_groupedCounts.mp hspec.2.2.1 with ⟨hpos, _⟩
    rcases List.exists_mem_of_length_pos hpos with ⟨s, hsmem⟩
    rcases List.mem_filter.mp hsmem with ⟨hssel, hskey⟩
    have hskey2 : sKey s = some (e.code, e.pag, e.owner) := by simpa using hskey
    have hsmap : s ∈ rows.map toSRow := (mem_sSort sCodeLt).mp hssel
    rcases List.mem_map.mp hsmap with ⟨p, hp, hps⟩
    have hpo : p.owner = some e.owner ∧ p.code = e.code ∧ p.pag = e.pag := by
      rw [← hps] at hskey2
      cases ho : p.owner with
      | none =>
        rw [show sKey (toSRow p) = p.owner.map (fun o => (p.code, p.pag, o))
          from rfl, ho] at hskey2
        exact absurd hskey2 (by simp)
      | some o' =>
        rw [show sKey (toSRow p) = p.owner.map (fun o => (p.code, p.pag, o))
          from rfl, ho] at hskey2
        rcases (by simpa using hskey2 :
            p.code = e.code ∧ p.pag = e.pag ∧ o' = e.owner) with ⟨h1, h2, h3⟩
        exact ⟨by rw [h3], h1, h2⟩
    have hpeer2 := hpeer p hp (hpo.2.1.trans hspec.2.1) (hpo.2.2.trans hspec.1)
    rcases hpeer2 with hsent | hnone
    · rw [hpo.1] at hsent
      have heo : e.owner = sentinel := Option.some_inj.mp hsent
      rw [hr1e]
      show some e.owner = some sentinel
      rw [heo]
    · rw [hpo.1] at hnone
      exact absurd hnone (by simp)

/-- Fixture for the C3 counterexample: one sentinel row with no peers. -/
def c3rows : List LRow := [⟨"C1", "P", some sentinel, "1"⟩]

/-- A master mapping whose owner value for PAG "P" is itself the
sentinel string. -/
def c3master : List MRow := [⟨"P", some sentinel, some "Dir"⟩]

/-- C3 counterexample: the claim says that after the full cascade no
row carries the sentinel owner.  With a MasterMapping whose owner for
the row's category key is the sentinel string, the master lookup writes
the sentinel back and the resolved table still contains it. -/
theorem c3_sentinel_from_master_cex :
    resolveOwners c3rows c3master = [⟨"C1", "P", some sentinel, "1"⟩] := by
  decide

/-- Fixture rows for the C3 witness. -/
def c3wrows : List LRow := [⟨"C1", "P", some sentinel, "1"⟩]

/-- Master mapping for the C3 witness: a well-formed owner, and no
entry for PAG "P". -/
def c3wmaster : List MRow := [⟨"Q", some "Carol", some "Dan"⟩]

/-- C3 witness: with a sentinel-free master holding no entry for "P",
the lone sentinel row (which has no peers) stays sentinel through the
majority vote and ends with owner null, and no output row carries the
sentinel. -/
theorem c3_cascade_no_sentinel_witness :
    (∀ r' ∈ resolveOwners c3wrows c3wmaster, r'.owner ≠ some sentinel) ∧
    (∀ r ∈ stage3 c3wrows, r.owner = some sentinel →
      (∀ m ∈ c3wmaster, (normMaster m).pag ≠ r.pag) →
      ∀ r' ∈ expand4 (stage3 c3wrows) c3wmaster r, r'.owner = none) ∧
    (∀ r ∈ c3wrows, r.owner = some sentinel →
      (∀ p ∈ c3wrows, p.code = r.code → p.pag = r.pag →
        p.owner = some sentinel ∨ p.owner = none) →
      ∀ r1 ∈ expand3 c3wrows r, r1.owner = some sentinel) :=
  c3_cascade_no_sentinel c3wrows c3wmaster (by decide)

/-- A row of `df_director_map`: one row of `df_leaders_final` plus the
DIRECTOR column picked up from the edited roster. -/
structure FRow where
  row : LRow
  dir : Option String
deriving DecidableEq, Repr

/-- Projection `[['PAG','Member Supervisor','DIRECTOR']]`. -/
def toTriple (f : FRow) : MRow := ⟨f.row.pag, f.row.owner, f.dir⟩

/-- Model of `process_master_data_update` (lines 198-207): deduplicate
the `(PAG, Member Supervisor, DIRECTOR)` triples of the edited roster,
left-merge them onto `df_leaders_final` on `(PAG, Member Supervisor)`,
and drop duplicate result rows.  The argument is the roster already
projected to its three relevant columns. -/
def processMasterData (editedTriples : List MRow) (lf : List LRow) : List FRow :=
  let m := dedupKeepFirst (fun t : MRow => t) editedTriples
  dedupKeepFirst (fun f : FRow => f)
    (lf.flatMap (fun l =>
      let ms := m.filter (fun t => t.pag = l.pag ∧ t.ms = l.owner)
      if ms.isEmpty then [⟨l, none⟩] else ms.map (fun t => (⟨l, t.dir⟩ : FRow))))

theorem mem_pmd {T : List MRow} {lf : List LRow} {f : FRow} :
    f ∈ processMasterData T lf ↔
      ∃ l ∈ lf, f.row = l ∧
        ((∃ t ∈ T, t.pag = l.pag ∧ t.ms = l.owner ∧ t.dir = f.dir) ∨
         (f.dir = none ∧ ∀ t ∈ T, ¬ (t.pag = l.pag ∧ t.ms = l.owner))) := by
  constructor
  · intro h
    have h1 := mem_dedupKeepFirst_id.mp h
    rcases List.mem_flatMap.mp h1 with ⟨l, hl, hf⟩
    by_cases hc : ((dedupKeepFirst (fun t : MRow => t) T).filter
        (fun t => t.pag = l.pag ∧ t.ms = l.owner)).isEmpty
    · rw [if_pos hc] at hf
      have hfe : f = ⟨l, none⟩ := by simpa using hf
      refine ⟨l, hl, by rw [hfe], Or.inr ⟨by rw [hfe], ?_⟩⟩
      intro t ht hpred
      have ht2 : t ∈ dedupKeepFirst (fun t : MRow => t) T :=
        mem_dedupKeepFirst_id.mpr ht
      have hmemf : t ∈ (dedupKeepFirst (fun t : MRow => t) T).filter
          (fun t => t.pag = l.pag ∧ t.ms = l.owner) :=
        List.mem_filter.mpr ⟨ht2, by simp [hpred.1, hpred.2]⟩
      rw [List.isEmpty_iff] at hc
      rw [hc] at hmemf
      exact absurd hmemf (by simp)
    · rw [if_neg hc] at hf
      rcases List.mem_map.mp hf with ⟨t, htf, hft⟩
      rcases List.mem_filter.mp htf with ⟨htm, hpredb⟩
      have htT : t ∈ T := mem_dedupKeepFirst_id.mp htm
      rcases (by simpa using hpredb : t.pag = l.pag ∧ t.ms = l.owner)
        with ⟨hp1, hp2⟩
      exact ⟨l, hl, by rw [← hft], Or.inl ⟨t, htT, hp1, hp2, by rw [← hft]⟩⟩
  · rintro ⟨l, hl, hfl, hdisj⟩
    refine mem_dedupKeepFirst_id.mpr (List.mem_flatMap.mpr ⟨l, hl, ?_⟩)
    by_cases hc : ((dedupKeepFirst (fun t : MRow => t) T).filter
        (fun t => t.pag = l.pag ∧ t.ms = l.owner)).isEmpty
    · rw [if_pos hc]
      rcases hdisj with ⟨t, ht, hp1, hp2, _⟩ | ⟨hdir, _⟩
      · exfalso
        have ht2 : t ∈ dedupKeepFirst (fun t : MRow => t) T :=
          mem_dedupKeepFirst_id.mpr ht
        have hmemf : t ∈ (dedupKeepFirst (fun t : MRow => t) T).filter
            (fun t => t.pag = l.pag ∧ t.ms = l.owner) :=
          List.mem_filter.mpr ⟨ht2, by simp [hp1, hp2]⟩
        rw [List.isEmpty_iff] at hc
        rw [hc] at hmemf
        exact absurd hmemf (by simp)
      · have hfe : f = ⟨l, none⟩ := by
          have h0 : f = ⟨f.row, f.dir⟩ := rfl
          rw [h0, hfl, hdir]
        rw [hfe]
        exact List.mem_singleton.mpr rfl
    · rw [if_neg hc]
      rcases hdisj with ⟨t, ht, hp1, hp2, hdir⟩ | ⟨hdir, hall⟩
      · refine List.mem_map.mpr ⟨t, List.mem_filter.mpr
          ⟨mem_dedupKeepFirst_id.mpr ht, by simp [hp1, hp2]⟩, ?_⟩
        have h0 : f = ⟨f.row, f.dir⟩ := rfl
        rw [h0, hfl, hdir]
      · exfalso
        have hne : (dedupKeepFirst (fun t : MRow => t) T).filter
            (fun t => t.pag = l.pag ∧ t.ms = l.owner) ≠ [] := by
          intro hnil
          rw [← List.isEmpty_iff] at hnil
          exact hc hnil
        rcases List.exists_mem_of_ne_nil _ hne with ⟨t, htmem⟩
        rcases List.mem_filter.mp htmem with ⟨htm, hpredb⟩
        rcases (by simpa using hpredb : t.pag = l.pag ∧ t.ms = l.owner)
          with ⟨hp1, hp2⟩
        exact hall t (mem_dedupKeepFirst_id.mp htm) ⟨hp1, hp2⟩

theorem nodup_pmd (T : List MRow) (lf : List LRow) :
    (processMasterData T lf).Nodup :=
  nodup_dedupKeepFirst_id _

/-- C8: Director Derivation and Manual-Override Merge is idempotent.
Feeding the stage's own output (projected to its
`(PAG, Member Supervisor, DIRECTOR)` triples, as line 199 does) back in
as the edited roster, with the same `df_leaders_final`, returns the
first output up to row order: the two outputs are permutations of each
other, equal in every cell. -/
theorem c8_director_merge_idempotent (T : List MRow) (lf : List LRow) :
    (processMasterData ((processMasterData T lf).map toTriple) lf).Perm
      (processMasterData T lf) := by
  have hmem : ∀ f : FRow,
      f ∈ processMasterData ((processMasterData T lf).map toTriple) lf ↔
      f ∈ processMasterData T lf := by
    intro f
    rw [mem_pmd, mem_pmd]
    constructor
    · rintro ⟨l, hl, hfl, hd⟩
      refine ⟨l, hl, hfl, ?_⟩
      rcases hd with ⟨t, ht2, hp1, hp2, hdir⟩ | ⟨hdn, hall⟩
      · rcases List.mem_map.mp ht2 with ⟨f', hf', hft⟩
        have hf'd : f'.dir = f.dir := by rw [← hft] at hdir; exact hdir
        have hfp : f'.row.pag = l.pag := by rw [← hft] at hp1; exact hp1
        have hfo : f'.row.owner = l.owner := by rw [← hft] at hp2; exact hp2
        rcases mem_pmd.mp hf' with ⟨l', _, hfl', hd'⟩
        have hlp : l'.pag = l.pag := by rw [← hfl']; exact hfp
        have hlo : l'.owner = l.owner := by rw [← hfl']; exact hfo
        rcases hd' with ⟨t', ht', hq1, hq2, hq3⟩ | ⟨hdn', hall'⟩
        · exact Or.inl ⟨t', ht', by rw [hq1, hlp], by rw [hq2, hlo],
            by rw [hq3, hf'd]⟩
        · refine Or.inr ⟨by rw [← hf'd, hdn'], ?_⟩
          intro t'' ht'' hpred
          exact hall' t'' ht''
            ⟨hpred.1.trans hlp.symm, hpred.2.trans hlo.symm⟩
      · refine Or.inr ⟨hdn, ?_⟩
        intro t ht hpred
        have hf'' : (⟨l, t.dir⟩ : FRow) ∈ processMasterData T lf :=
          mem_pmd.mpr ⟨l, hl, rfl, Or.inl ⟨t, ht, hpred.1, hpred.2, rfl⟩⟩
        exact hall (toTriple ⟨l, t.dir⟩)
          (List.mem_map.mpr ⟨_, hf'', rfl⟩) ⟨rfl, rfl⟩
    · rintro ⟨l, hl, hfl, hd⟩
      refine ⟨l, hl, hfl, ?_⟩
      rcases hd with ⟨t, ht, hp1, hp2, hdir⟩ | ⟨hdn, hall⟩
      · have hf' : (⟨l, f.dir⟩ : FRow) ∈ processMasterData T lf :=
          mem_pmd.mpr ⟨l, hl, rfl, Or.inl ⟨t, ht, hp1, hp2, hdir⟩⟩
        exact Or.inl ⟨toTriple ⟨l, f.dir⟩,
          List.mem_map.mpr ⟨_, hf', rfl⟩, rfl, rfl, rfl⟩
      · have hf' : (⟨l, none⟩ : FRow) ∈ processMasterData T lf :=
          mem_pmd.mpr ⟨l, hl, rfl, Or.inr ⟨rfl, hall⟩⟩
        exact Or.inl ⟨toTriple ⟨l, none⟩,
          List.mem_map.mpr ⟨_, hf', rfl⟩, rfl, rfl, by rw [hdn]; rfl⟩
  rw [List.perm_iff_count]
  intro f
  by_cases hf : f ∈ processMasterData T lf
  · rw [List.count_eq_one_of_mem (nodup_pmd _ _) ((hmem f).mpr hf),
      List.count_eq_one_of_mem (nodup_pmd _ _) hf]
  · rw [List.count_eq_zero_of_not_mem (fun hc => hf ((hmem f).mp hc)),
      List.count_eq_zero_of_not_mem hf]

theorem find?_congr {p q : α → Bool} :
    ∀ {l : List α}, (∀ x ∈ l, p x = q x) → l.find? p = l.find? q := by
  intro l
  induction l with
  | nil => intro _; rfl
  | cons x xs ih =>
    intro h
    have hx := h x (List.mem_cons_self x xs)
    cases hpx : p x with
    | true =>
      rw [List.find?_cons_of_pos _ hpx, List.find?_cons_of_pos _ (by rw [← hx]; exact hpx)]
    | false =>
      rw [List.find?_cons_of_neg _ (by simp [hpx]),
        List.find?_cons_of_neg _ (by rw [← hx]; simp [hpx])]
      exact ih (fun z hz => h z (List.mem_cons_of_mem x hz))

theorem find?_eq_head?_filter (p : α → Bool) :
    ∀ l : List α, l.find? p = (l.filter p).head? := by
  intro l
  induction l with
  | nil => rfl
  | cons x xs ih =>
    cases hpx : p x with
    | true => rw [List.find?_cons_of_pos _ hpx, List.filter_cons_of_pos hpx]; rfl
    | false =>
      rw [List.find?_cons_of_neg _ (by simp [hpx]),
        List.filter_cons_of_neg (by simp [hpx])]
      exact ih

theorem find?_flatMap_blocks {keys : List κ} {block : κ → List α}
    {p : α → Bool} {k : κ} (hknd : keys.Nodup) (hk : k ∈ keys)
    (hmatch : ∀ k' ∈ keys, ∀ x ∈ block k', (p x = true ↔ k' = k))
    (hne : block k ≠ []) :
    (keys.flatMap block).find? p = (block k).head? := by
  induction keys with
  | nil => exact absurd hk (by simp)
  | cons k' ks ih =>
    rcases List.pairwise_cons.mp hknd with ⟨hk'ne, hksnd⟩
    rw [show (k' :: ks).flatMap block = block k' ++ ks.flatMap block
      from by simp, List.find?_append]
    by_cases hkk : k' = k
    · subst hkk
      cases hbk : block k' with
      | nil => exact absurd hbk hne
      | cons b bs =>
        have hpb : p b = true :=
          (hmatch k' (List.mem_cons_self _ _) b
            (by rw [hbk]; exact List.mem_cons_self _ _)).mpr rfl
        rw [List.find?_cons_of_pos _ hpb]
        rfl
    · have hfb : (block k').find? p = none := by
        rw [List.find?_eq_none]
        intro x hx hpx
        exact hkk ((hmatch k' (List.mem_cons_self _ _) x hx).mp hpx)
      have hkks : k ∈ ks := by
        rcases List.mem_cons.mp hk with h | h
        · exact absurd h.symm hkk
        · exact h
      rw [hfb]
      have := ih hksnd hkks
        (fun k2 hk2 x hx => hmatch k2 (List.mem_cons_of_mem k' hk2) x hx)
      rw [this]
      rfl

/-- A row of the filtered accrual extract (`filtered_df_accrual`):
`emplId` is `str(Empl ID)` (the `MEMBER ID` column created at line
253), `project` the `Project` column, and `extra` all other columns. -/
structure ARow where
  emplId : String
  project : String
  extra : String
deriving DecidableEq, Repr

/-- A row of `df_director_map` as consumed by the accrual mapping:
the free-text `Member Name & ID` field, the category key `PAG`, the
`Code` column (renamed `Project` at line 261), and the owner/director
columns.  Line 262 projects onto
`['MEMBER ID','Project','Member Supervisor','DIRECTOR']`, so the PAG
column is dropped before the join. -/
structure RRow where
  nameId : Option String
  pag : String
  code : String
  ms : Option String
  dir : Option String
deriving DecidableEq, Repr

/-- One output row of the accrual mapping: a transaction row plus the
owner and director it picked up. -/
structure AOut where
  t : ARow
  ms : Option String
  dir : Option String
deriving DecidableEq, Repr

/-- Python `series.str.split().str[-1]`: the last whitespace-delimited
token, or null when there is none. -/
def lastToken (s : String) : Option String := (pyTokens s).getLast?

/-- The derived `MEMBER ID` of a roster row (line 260); null when the
name-and-id field is null or all whitespace. -/
def memberId (r : RRow) : Option String := r.nameId.bind lastToken

/-- `filtered_df_select = filtered_df_accrual[['MEMBER ID','Project']]
.drop_duplicates()` (line 256): the distinct transaction key pairs. -/
def accrualPairs (trans : List ARow) : List (String × String) :=
  dedupKeepFirst (fun p : String × String => p)
    (trans.map (fun t => (t.emplId, t.project)))

/-- `df_leaders_CODE_select` (lines 259-262): the roster projected to
`['MEMBER ID','Project','Member Supervisor','DIRECTOR']` with full-row
duplicates dropped. -/
def rosterSelect (roster : List RRow) :
    List (Option String × String × Option String × Option String) :=
  dedupKeepFirst
    (fun q : Option String × String × Option String × Option String => q)
    (roster.map (fun r => (memberId r, r.code, r.ms, r.dir)))

/-- The rows one distinct transaction pair becomes in
`df_accural_manager_code` (the left merge of lines 265-270). -/
def accrualBlock (roster : List RRow) (p : String × String) :
    List ((String × String) × Option String × Option String) :=
  let ms := (rosterSelect roster).filter
    (fun q => q.1 = some p.1 ∧ q.2.1 = p.2)
  if ms.isEmpty then [(p, (none : Option String), (none : Option String))]
  else ms.map (fun q => (p, q.2.2.1, q.2.2.2))

/-- `df_accural_manager_code2` (line 272): the merge result
deduplicated on `['MEMBER ID','Project']` keeping the first match. -/
def accrualCode2 (trans : List ARow) (roster : List RRow) :
    List ((String × String) × Option String × Option String) :=
  dedupKeepFirst
    (fun x : (String × String) × Option String × Option String => x.1)
    ((accrualPairs trans).flatMap (accrualBlock roster))

/-- The rows one transaction row becomes in the final left merge of
`process_accrual_mapping` (lines 275-279). -/
def accrualExpand (trans : List ARow) (roster : List RRow) (t : ARow) :
    List AOut :=
  let msf := (accrualCode2 trans roster).filter
    (fun x => x.1.1 = t.emplId ∧ x.1.2 = t.project)
  if msf.isEmpty then [⟨t, none, none⟩]
  else msf.map (fun x => ⟨t, x.2.1, x.2.2⟩)

/-- The Downstream Mapping Propagator's final merge (line 275). -/
def accrualMap (trans : List ARow) (roster : List RRow) : List AOut :=
  trans.flatMap (accrualExpand trans roster)

theorem accrualBlock_fst {roster : List RRow} {p : String × String} :
    ∀ x ∈ accrualBlock roster p, x.1 = p := by
  intro x hx
  simp only [accrualBlock] at hx
  by_cases hc : ((rosterSelect roster).filter
      (fun q => q.1 = some p.1 ∧ q.2.1 = p.2)).isEmpty
  · rw [if_pos hc] at hx
    have : x = (p, none, none) := by simpa using hx
    rw [this]
  · rw [if_neg hc] at hx
    rcases List.mem_map.mp hx with ⟨q, _, hq⟩
    rw [← hq]

theorem accrualBlock_ne_nil {roster : List RRow} {p : String × String} :
    accrualBlock roster p ≠ [] := by
  simp only [accrualBlock]
  by_cases hc : ((rosterSelect roster).filter
      (fun q => q.1 = some p.1 ∧ q.2.1 = p.2)).isEmpty
  · rw [if_pos hc]
    simp
  · rw [if_neg hc]
    intro hmap
    rw [List.map_eq_nil_iff] at hmap
    rw [← List.isEmpty_iff] at hmap
    exact hc hmap

theorem accrualBlock_head (roster : List RRow) (a b : String) :
    (accrualBlock roster (a, b)).head? =
      some (match (rosterSelect roster).find?
          (fun q => q.1 = some a ∧ q.2.1 = b) with
        | some q => (((a, b) : String × String), q.2.2.1, q.2.2.2)
        | none => (((a, b) : String × String), none, none)) := by
  simp only [accrualBlock]
  rw [find?_eq_head?_filter]
  by_cases hc : ((rosterSelect roster).filter
      (fun q => q.1 = some a ∧ q.2.1 = b)).isEmpty
  · rw [List.isEmpty_iff] at hc
    rw [if_pos (by rw [hc]; rfl), hc]
    rfl
  · rw [if_neg (by rw [List.isEmpty_iff] at hc ⊢; exact hc), List.head?_map]
    rw [List.isEmpty_iff] at hc
    cases hh : ((rosterSelect roster).filter
        (fun q => q.1 = some a ∧ q.2.1 = b)).head? with
    | none =>
      rw [List.head?_eq_none_iff] at hh
      exact absurd hh hc
    | some q => rfl

/-- C4 (amended): in the Downstream Mapping Propagator, `member_id` is
the last whitespace-delimited token of the roster's free-text
name-and-id field, and each transaction row is joined to the roster on
the pair `(member_id, group_key)` -- the transaction's `Project` code
against the roster's `Code` column, NOT the category key `PAG` -- with
the first matching roster row kept; a transaction row with no such
roster match keeps owner and director null. -/
theorem c4_accrual_first_match (trans : List ARow) (roster : List RRow)
    (t : ARow) (ht : t ∈ trans) :
    accrualExpand trans roster t =
      [match roster.find?
          (fun r => memberId r = some t.emplId ∧ r.code = t.project) with
       | some r => ⟨t, r.ms, r.dir⟩
       | none => ⟨t, none, none⟩] := by
  have hkmem : ((t.emplId, t.project) : String × String) ∈ accrualPairs trans :=
    mem_dedupKeepFirst_id.mpr (List.mem_map.mpr ⟨t, ht, rfl⟩)
  have hknd : (accrualPairs trans).Nodup := nodup_dedupKeepFirst_id _
  have hstepB : ((accrualPairs trans).flatMap (accrualBlock roster)).find?
      (fun x => x.1.1 = t.emplId ∧ x.1.2 = t.project)
      = (accrualBlock roster (t.emplId, t.project)).head? := by
    refine find?_flatMap_blocks hknd hkmem ?_ accrualBlock_ne_nil
    intro p' _ x hx
    have hx1 := accrualBlock_fst x hx
    constructor
    · intro hd
      rcases (by simpa using hd : x.1.1 = t.emplId ∧ x.1.2 = t.project)
        with ⟨h1, h2⟩
      rw [← hx1, Prod.ext_iff]
      exact ⟨h1, h2⟩
    · intro hpk
      rw [hpk] at hx1
      simp [hx1]
  have hstepA : (accrualCode2 trans roster).filter
      (fun x => x.1.1 = t.emplId ∧ x.1.2 = t.project)
      = (((accrualPairs trans).flatMap (accrualBlock roster)).find?
          (fun x => x.1.1 = t.emplId ∧ x.1.2 = t.project)).toList := by
    refine filter_dedupKeepFirst _ _ ((t.emplId, t.project) : String × String)
      ?_ _
    intro x
    simp [Prod.ext_iff]
  have hproj : (rosterSelect roster).find?
      (fun q => q.1 = some t.emplId ∧ q.2.1 = t.project)
      = Option.map (fun r => (memberId r, r.code, r.ms, r.dir))
          (roster.find?
            (fun r => memberId r = some t.emplId ∧ r.code = t.project)) := by
    rw [show rosterSelect roster = dedupKeepFirst
        (fun q : Option String × String × Option String × Option String => q)
        (roster.map (fun r => (memberId r, r.code, r.ms, r.dir))) from rfl]
    rw [find?_dedupKeepFirst _ _ (fun x y h => by rw [h]) _]
    rw [List.find?_map]
    exact congrArg (Option.map _) (find?_congr (fun r _ => rfl))
  simp only [accrualExpand]
  rw [hstepA, hstepB, accrualBlock_head roster t.emplId t.project, hproj]
  cases hfind : roster.find?
      (fun r => memberId r = some t.emplId ∧ r.code = t.project) with
  | none => rfl
  | some r0 => rfl

/-- Modelled from the spec: the roster deduplication the claim
describes, "the roster first deduplicated on the pair
(member_id, category_key) keeping the first match".  The code itself
never builds this table -- it joins and deduplicates on
`(MEMBER ID, Project)`, the group key -- so this definition follows the
claim's words, for comparison. -/
def rosterDedupByCategory (roster : List RRow) : List RRow :=
  dedupKeepFirst (fun r : RRow => (memberId r, r.pag)) roster

/-- Roster fixture for the C4 counterexample: the same member and
category key ("P") on two different project codes, owned by Alice and
Bob respectively. -/
def c4roster : List RRow :=
  [⟨some "John 5", "P", "C1", some "Alice", some "D1"⟩,
   ⟨some "John 5", "P", "C2", some "Bob", some "D2"⟩]

/-- Transaction fixture for the C4 counterexample: member 5 charging
project "C2". -/
def c4trans : List ARow := [⟨"5", "C2", "x"⟩]

/-- C4 counterexample: under the claim the roster is first deduplicated
on (member_id, category_key), which keeps only the Alice row (both
roster rows share member "5" and category "P"), so no transaction could
ever be mapped to Bob.  The code joins on (member_id, Project) -- the
group key -- and maps the transaction to Bob, an owner no row of the
claim's deduplicated roster carries. -/
theorem c4_join_on_group_key_cex :
    accrualMap c4trans c4roster
      = [⟨⟨"5", "C2", "x"⟩, some "Bob", some "D2"⟩] ∧
    rosterDedupByCategory c4roster
      = [⟨some "John 5", "P", "C1", some "Alice", some "D1"⟩] ∧
    (∀ r ∈ rosterDedupByCategory c4roster, r.ms ≠ some "Bob") := by
  refine ⟨by decide, by decide, by decide⟩

/-- Fixtures for the C4 witness: one matching roster row, one
non-matching one, and a transaction with no roster match at all. -/
def c4wroster : List RRow :=
  [⟨some "Jane Q 7", "P", "C1", some "Alice", some "D1"⟩,
   ⟨some "Bob 8", "P", "C1", some "Bob", none⟩]

/-- Transactions for the C4 witness. -/
def c4wtrans : List ARow := [⟨"7", "C1", "a"⟩, ⟨"9", "C9", "b"⟩]

/-- C4 witness: member 7 (the last token of "Jane Q 7") on project "C1"
picks up Alice's row; the unmatched transaction keeps owner and
director null. -/
theorem c4_accrual_first_match_witness :
    accrualExpand c4wtrans c4wroster ⟨"7", "C1", "a"⟩
      = [match c4wroster.find?
          (fun r => memberId r = some (ARow.mk "7" "C1" "a").emplId ∧
            r.code = (ARow.mk "7" "C1" "a").project) with
         | some r => ⟨⟨"7", "C1", "a"⟩, r.ms, r.dir⟩
         | none => ⟨⟨"7", "C1", "a"⟩, none, none⟩] ∧
    accrualExpand c4wtrans c4wroster ⟨"9", "C9", "b"⟩
      = [match c4wroster.find?
          (fun r => memberId r = some (ARow.mk "9" "C9" "b").emplId ∧
            r.code = (ARow.mk "9" "C9" "b").project) with
         | some r => ⟨⟨"9", "C9", "b"⟩, r.ms, r.dir⟩
         | none => ⟨⟨"9", "C9", "b"⟩, none, none⟩] :=
  ⟨c4_accrual_first_match c4wtrans c4wroster ⟨"7", "C1", "a"⟩ (by decide),
   c4_accrual_first_match c4wtrans c4wroster ⟨"9", "C9", "b"⟩ (by decide)⟩
